import Mathlib

/-!
Verification development for the `oslquery-petite` OSO parser.

The definitions below are a shallow embedding of the Rust sources:
`src/parser/oso.rs` (tokenizer, nom grammar), `src/parser/hint.rs`
(hint micro-grammars), `src/parser/types.rs` (intermediate types),
`src/types.rs` (typed parameters and unification), `src/query.rs`
(query model) and `src/parser/reader.rs` (line dispatcher).

Strings are modelled as `List Char`; `i32` values as `Int` with explicit
range checks at the parse sites; `f32` values symbolically (see `F32`).
-/

namespace Oslq

/-- Whitespace characters recognized by the tokenizer's separator arm
(`' ' | '\t' | '\r' | '\n'` in `tokenize_line`). -/
def wsChar (c : Char) : Bool :=
  c == ' ' || c == '\t' || c == '\r' || c == '\n'

/-! ### Tokenizer (`tokenize_line` in src/parser/oso.rs)

The Rust function is one pass over the line's characters: a main loop with
two inner loops (one scanning to a closing quote, one tracking brace depth
after a `%`).  All three loops consume exactly one character per iteration
from the same iterator, so the whole is transcribed as a single fold over
the characters with an explicit mode: `plain` is the main loop (`acc = none`
meaning `in_token == false`, `acc = some a` carrying `line[current_start..i]`),
`quoted` is the closing-quote scan, and `hintMode` is the brace scan with its
running `brace_count`. -/

/-- Mode of the tokenizer state machine. -/
inductive TokMode where
  | plain (acc : Option (List Char))
  | quoted (acc : List Char)
  | hintMode (depth : Int) (acc : List Char)
deriving DecidableEq

/-- One step of the tokenizer on one character. -/
def tokStep (toks : List (List Char)) (m : TokMode) (c : Char) :
    List (List Char) × TokMode :=
  match m with
  | .plain acc =>
    if c == '"' then (toks, .quoted (acc.getD [] ++ [c]))
    else if c == '%' then (toks, .hintMode 0 (acc.getD [] ++ [c]))
    else if wsChar c then
      match acc with
      | some a => (toks ++ [a], .plain none)
      | none => (toks, .plain none)
    else (toks, .plain (some (acc.getD [] ++ [c])))
  | .quoted acc =>
    -- the escape test is `!line[..j].ends_with('\\')`: the previous character
    -- of the line, which is the last character accumulated so far
    if c == '"' && acc.getLast? != some '\\' then
      (toks ++ [acc ++ [c]], .plain none)
    else (toks, .quoted (acc ++ [c]))
  | .hintMode depth acc =>
    if c == '\x7b' then (toks, .hintMode (depth + 1) (acc ++ [c]))
    else if c == '\x7d' then
      if depth - 1 == 0 then (toks ++ [acc ++ [c]], .plain none)
      else (toks, .hintMode (depth - 1) (acc ++ [c]))
    else if depth == 0 && wsChar c then (toks ++ [acc], .plain none)
    else (toks, .hintMode depth (acc ++ [c]))

/-- End of line: any token still open is pushed (`if in_token { tokens.push(..) }`
after the main loop; the hint scan's own exhaustion push behaves identically). -/
def tokEnd (toks : List (List Char)) (m : TokMode) : List (List Char) :=
  match m with
  | .plain none => toks
  | .plain (some a) => toks ++ [a]
  | .quoted acc => toks ++ [acc]
  | .hintMode _ acc => toks ++ [acc]

/-- The tokenizer loop. -/
def tokenizeGo (toks : List (List Char)) (m : TokMode) : List Char → List (List Char)
  | [] => tokEnd toks m
  | c :: rest =>
    let s := tokStep toks m c
    tokenizeGo s.1 s.2 rest

/-- Tokenize a line into whitespace-separated tokens, preserving quoted
strings and hint blocks (`tokenize_line`). -/
def tokenizeLine (line : List Char) : List (List Char) :=
  tokenizeGo [] (.plain none) line

/-! ### String utilities used by the sources -/

/-- Strip one trailing carriage return, as Rust's `str::lines` does per line. -/
def stripCR (l : List Char) : List Char :=
  if l.getLast? == some '\r' then l.dropLast else l

/-- Worker for `splitLines`. -/
def splitLinesGo (cur : List Char) : List Char → List (List Char)
  | [] => [stripCR cur]
  | c :: cs =>
    if c == '\n' then
      stripCR cur :: (if cs.isEmpty then [] else splitLinesGo [] cs)
    else splitLinesGo (cur ++ [c]) cs

/-- Model of Rust's `str::lines`: split on newline, no trailing empty line
when the content ends with a newline, one trailing `'\r'` stripped per line. -/
def splitLines (cs : List Char) : List (List Char) :=
  if cs.isEmpty then [] else splitLinesGo [] cs

/-- Model of Rust `str::trim` on the ASCII whitespace the format uses. -/
def trimAscii (l : List Char) : List Char :=
  ((l.dropWhile (fun c => wsChar c)).reverse.dropWhile (fun c => wsChar c)).reverse

/-- Model of Rust `str::trim_start`. -/
def trimStartAscii (l : List Char) : List Char :=
  l.dropWhile (fun c => wsChar c)

/-- Model of Rust `str::trim_matches('"')`: strip all leading and trailing
quote characters. -/
def trimQuotes (l : List Char) : List Char :=
  ((l.dropWhile (fun c => c == '"')).reverse.dropWhile (fun c => c == '"')).reverse

/-- Model of Rust `str::split(',')` (yields one empty piece for the empty
string, and empty pieces between adjacent separators). -/
def splitOnComma : List Char → List (List Char)
  | [] => [[]]
  | c :: rest =>
    if c == ',' then [] :: splitOnComma rest
    else
      match splitOnComma rest with
      | p :: ps => (c :: p) :: ps
      | [] => [[c]]

/-- Model of Rust `str::contains(',')`. -/
def containsComma (l : List Char) : Bool :=
  l.any (fun c => c == ',')

/-- Replace every (leftmost, non-overlapping) occurrence of the two-character
pattern `p1 p2` by the character `r`; all `str::replace` calls in the sources
use two-character patterns. -/
def replace2 (p1 p2 r : Char) : List Char → List Char
  | [] => []
  | [c] => [c]
  | c1 :: c2 :: rest =>
    if c1 == p1 && c2 == p2 then r :: replace2 p1 p2 r rest
    else c1 :: replace2 p1 p2 r (c2 :: rest)

/-- Escape handling of `parse_string` in src/parser/oso.rs: the `replace`
chain in its source order (`\\n`, `\\t`, `\\r`, `\\\"`, `\\\\`). -/
def unescapeQuoted (s : List Char) : List Char :=
  replace2 '\\' '\\' '\\'
    (replace2 '\\' '"' '"'
      (replace2 '\\' 'r' '\r'
        (replace2 '\\' 't' '\t'
          (replace2 '\\' 'n' '\n' s))))

/-- Escape handling of `parse_default_token` in src/parser/oso.rs, whose
`replace` chain runs in a different order (`\\\\` first). -/
def unescapeDefaultTok (s : List Char) : List Char :=
  replace2 '\\' '"' '"'
    (replace2 '\\' 'r' '\r'
      (replace2 '\\' 't' '\t'
        (replace2 '\\' 'n' '\n'
          (replace2 '\\' '\\' '\\' s))))

/-! ### Numeric token parsing

`i32` values are modelled as `Int` with the `i32` range enforced where the
source calls `str::parse::<i32>`.  `f32` values are modelled symbolically:
every value in the program arises either from an `i as f32` cast of a parsed
integer or from a token accepted by `str::parse::<f32>`; no claim depends on
float arithmetic, only on which buffers values land in and in what order. -/

/-- Symbolic `f32` value. -/
inductive F32 where
  | ofInt (n : Int)
  | ofLit (token : List Char)
deriving DecidableEq

/-- Decimal digits to a natural number. -/
def digitsToNat (ds : List Char) : Nat :=
  ds.foldl (fun acc c => acc * 10 + (c.toNat - '0'.toNat)) 0

/-- Whether a character is an ASCII digit. -/
def isDigitChar (c : Char) : Bool :=
  '0' ≤ c && c ≤ '9'

/-- Model of Rust `str::parse::<i32>` on a whole token: optional sign, one or
more digits, nothing else, and the value within the `i32` range. -/
def parseI32Str (t : List Char) : Option Int :=
  let (sign, ds) :=
    match t with
    | '+' :: rest => ((1 : Int), rest)
    | '-' :: rest => ((-1 : Int), rest)
    | _ => ((1 : Int), t)
  if ds.isEmpty || ds.any (fun c => !isDigitChar c) then none
  else
    let v : Int := sign * (digitsToNat ds : Int)
    if -2147483648 ≤ v && v ≤ 2147483647 then some v else none

/-- Grammar accepted by Rust `str::parse::<f32>`: optional sign, then either
`inf`/`infinity`/`nan` (any case) or a decimal mantissa (`digits`,
`digits.digits?` or `.digits`), then an optional exponent.  Overflow does not
reject (it saturates to infinity), so there is no range check. -/
def isF32Lit (t : List Char) : Bool :=
  let t := match t with
    | '+' :: r => r
    | '-' :: r => r
    | _ => t
  let lower := t.map Char.toLower
  if lower == "inf".data || lower == "infinity".data || lower == "nan".data then true
  else
    let mant := t.takeWhile (fun c => isDigitChar c || c == '.')
    let rest := t.drop mant.length
    let intPart := mant.takeWhile (fun c => isDigitChar c)
    let frac := mant.drop intPart.length
    let mantOk :=
      match frac with
      | [] => !intPart.isEmpty
      | '.' :: fds => (!intPart.isEmpty || !fds.isEmpty) && fds.all (fun c => isDigitChar c)
      | _ => false
    let expOk :=
      match rest with
      | [] => true
      | e :: er =>
        if e == 'e' || e == 'E' then
          let er := match er with
            | '+' :: r => r
            | '-' :: r => r
            | _ => er
          !er.isEmpty && er.all (fun c => isDigitChar c)
        else false
    mantOk && expOk

/-- Model of Rust `str::parse::<f32>` at the grammar level; an accepted token
becomes the symbolic value `F32.ofLit token`. -/
def parseF32Str (t : List Char) : Option F32 :=
  if isF32Lit t then some (.ofLit t) else none

/-! ### Intermediate types (src/parser/types.rs) -/

/-- Base type enumeration matching OSL's type system (`BaseType`). -/
inductive BaseType where
  | none_
  | int
  | float
  | string
  | color
  | point
  | vector
  | normal
  | matrix
deriving DecidableEq

/-- `FromStr for BaseType`: exact whole-string match; `none` is not listed
and fails like every other unknown name. -/
def BaseType.fromStr (s : List Char) : Option BaseType :=
  if s == "int".data then some .int
  else if s == "float".data then some .float
  else if s == "string".data then some .string
  else if s == "color".data then some .color
  else if s == "point".data then some .point
  else if s == "vector".data then some .vector
  else if s == "normal".data then some .normal
  else if s == "matrix".data then some .matrix
  else none

/-- Type descriptor (`TypeDesc`): `arraylen` is an `i32` (0 scalar, -1
dynamic array, N fixed array). -/
structure TypeDesc where
  basetype : BaseType
  arraylen : Int
  isClosure : Bool
deriving DecidableEq

/-- `TypeDesc::new`. -/
def TypeDesc.new (b : BaseType) : TypeDesc :=
  ⟨b, 0, false⟩

/-- `TypeDesc::is_array`. -/
def TypeDesc.isArray (t : TypeDesc) : Bool :=
  t.arraylen != 0

/-- `TypeDesc::is_unsized_array`. -/
def TypeDesc.isUnsizedArray (t : TypeDesc) : Bool :=
  t.arraylen == -1

/-- Symbol type (`SymType`). -/
inductive SymType where
  | param
  | outputParam
  | local
  | temp
  | global
  | const
deriving DecidableEq

/-- Type specification (`TypeSpec`); `structure` is never set by this parser
(no code path assigns it a positive value). -/
structure TypeSpec where
  simpletype : TypeDesc
  structureId : Int
deriving DecidableEq

/-- `TypeSpec::new`. -/
def TypeSpec.new (t : TypeDesc) : TypeSpec :=
  ⟨t, 0⟩

/-- `TypeSpec::is_structure`. -/
def TypeSpec.isStructure (t : TypeSpec) : Bool :=
  t.structureId > 0

/-- `TypeSpec::is_unsized_array`. -/
def TypeSpec.isUnsizedArray (t : TypeSpec) : Bool :=
  t.simpletype.isUnsizedArray

/-! ### nom-style parsers (src/parser/oso.rs)

Each parser takes the input and returns `none` on failure or
`some (value, remaining)` on success, mirroring `IResult`. -/

/-- nom `tag`: match a literal prefix. -/
def pTag (t : List Char) (input : List Char) : Option (List Char × List Char) :=
  if t.isPrefixOf input then some (t, input.drop t.length) else none

/-- nom `space1`: one or more spaces or tabs. -/
def pSpace1 (input : List Char) : Option (List Char × List Char) :=
  let sp := input.takeWhile (fun c => c == ' ' || c == '\t')
  if sp.isEmpty then none else some (sp, input.drop sp.length)

/-- nom `digit1`: one or more ASCII digits. -/
def pDigit1 (input : List Char) : Option (List Char × List Char) :=
  let ds := input.takeWhile (fun c => isDigitChar c)
  if ds.isEmpty then none else some (ds, input.drop ds.length)

/-- `parse_int`: recognize `[+-]?digits` and convert through
`str::parse::<i32>` (failure on overflow rejects the parse). -/
def parseIntTok (input : List Char) : Option (Int × List Char) :=
  let (signChars, rest) :=
    match input with
    | '+' :: r => (['+'], r)
    | '-' :: r => (['-'], r)
    | _ => (([] : List Char), input)
  match pDigit1 rest with
  | none => none
  | some (ds, rest2) =>
    match parseI32Str (signChars ++ ds) with
    | some v => some (v, rest2)
    | none => none

/-- `parse_identifier`: a C-style identifier, allowing `$` and (after the
first character) digits and `.`. -/
def parseIdent (input : List Char) : Option (List Char × List Char) :=
  let isFirst := fun (c : Char) => c.isAlpha && c.toNat < 128 || c == '_' || c == '$'
  let isRest := fun (c : Char) =>
    (c.isAlphanum && c.toNat < 128) || c == '_' || c == '$' || c == '.'
  match input with
  | [] => none
  | c :: _ =>
    if isFirst c then
      let name := input.takeWhile isRest
      some (name, input.drop name.length)
    else none

/-- `parse_string`: a quoted string; the content is everything up to the
first quote (so a closing quote must exist), run through the escape
replacements. -/
def parseQuotedStr (input : List Char) : Option (List Char × List Char) :=
  match input with
  | '"' :: rest =>
    let content := rest.takeWhile (fun c => c != '"')
    match rest.drop content.length with
    | '"' :: rest2 => some (unescapeQuoted content, rest2)
    | _ => none
  | _ => none

/-- `parse_version`: `OpenShadingLanguage <major>.<minor>`; the minor part is
`digit1` parsed with `unwrap_or(0)`, so digits overflowing `i32` give 0. -/
def parseVersion (input : List Char) : Option ((Int × Int) × List Char) :=
  match pTag "OpenShadingLanguage".data input with
  | none => none
  | some (_, r1) =>
    match pSpace1 r1 with
    | none => none
    | some (_, r2) =>
      match parseIntTok r2 with
      | none => none
      | some (major, r3) =>
        match r3 with
        | '.' :: r4 =>
          match pDigit1 r4 with
          | none => none
          | some (ds, r5) =>
            let minor : Int :=
              if (digitsToNat ds : Int) ≤ 2147483647 then (digitsToNat ds : Int) else 0
            some ((major, minor), r5)
        | _ => none

/-- `parse_shader`: an identifier, whitespace, then a quoted string or a bare
identifier as the shader name. -/
def parseShader (input : List Char) :
    Option ((List Char × List Char) × List Char) :=
  match parseIdent input with
  | none => none
  | some (stype, r1) =>
    match pSpace1 r1 with
    | none => none
    | some (_, r2) =>
      match parseQuotedStr r2 with
      | some (name, r3) => some ((stype, name), r3)
      | none =>
        match parseIdent r2 with
        | some (name, r3) => some ((stype, name), r3)
        | none => none

/-- `parse_symtype`: `alt` over the six keyword tags (prefix matching, in the
source's order). -/
def parseSymtype (input : List Char) : Option (SymType × List Char) :=
  match pTag "param".data input with
  | some (_, r) => some (.param, r)
  | none =>
  match pTag "oparam".data input with
  | some (_, r) => some (.outputParam, r)
  | none =>
  match pTag "local".data input with
  | some (_, r) => some (.local, r)
  | none =>
  match pTag "temp".data input with
  | some (_, r) => some (.temp, r)
  | none =>
  match pTag "global".data input with
  | some (_, r) => some (.global, r)
  | none =>
  match pTag "const".data input with
  | some (_, r) => some (.const, r)
  | none => none

/-- `parse_typename`: `alt` over the eight base-type tags (prefix matching,
in the source's order; `none` is not among them). -/
def parseTypename (input : List Char) : Option (BaseType × List Char) :=
  match pTag "int".data input with
  | some (_, r) => some (.int, r)
  | none =>
  match pTag "float".data input with
  | some (_, r) => some (.float, r)
  | none =>
  match pTag "string".data input with
  | some (_, r) => some (.string, r)
  | none =>
  match pTag "color".data input with
  | some (_, r) => some (.color, r)
  | none =>
  match pTag "point".data input with
  | some (_, r) => some (.point, r)
  | none =>
  match pTag "vector".data input with
  | some (_, r) => some (.vector, r)
  | none =>
  match pTag "normal".data input with
  | some (_, r) => some (.normal, r)
  | none =>
  match pTag "matrix".data input with
  | some (_, r) => some (.matrix, r)
  | none => none

/-- Optional array suffix: `[]` gives -1, `[N]` gives the parsed integer;
absence succeeds with no change (`opt(alt(...))`). -/
def parseArraySuffix (input : List Char) : Option Int × List Char :=
  match pTag "[]".data input with
  | some (_, r) => (some (-1), r)
  | none =>
    match input with
    | '[' :: r1 =>
      match parseIntTok r1 with
      | some (n, r2) =>
        match r2 with
        | ']' :: r3 => (some n, r3)
        | _ => (none, input)
      | none => (none, input)
    | _ => (none, input)

/-- `parse_closure`: `closure` whitespace `color`, then an optional array
suffix; the descriptor's base type is `color` with the closure flag set. -/
def parseClosure (input : List Char) : Option (TypeDesc × List Char) :=
  match pTag "closure".data input with
  | none => none
  | some (_, r1) =>
    match pSpace1 r1 with
    | none => none
    | some (_, r2) =>
      match pTag "color".data r2 with
      | none => none
      | some (_, r3) =>
        let (arraySpec, r4) := parseArraySuffix r3
        let td : TypeDesc := { TypeDesc.new .color with isClosure := true }
        let td := match arraySpec with
          | some n => { td with arraylen := n }
          | none => td
        some (td, r4)

/-- `parse_typespec`: closure form first, else a type name with an optional
array suffix. -/
def parseTypespec (input : List Char) : Option (TypeSpec × List Char) :=
  match parseClosure input with
  | some (td, r) => some (TypeSpec.new td, r)
  | none =>
    match parseTypename input with
    | none => none
    | some (b, r1) =>
      let (arraySpec, r2) := parseArraySuffix r1
      let td := TypeDesc.new b
      let td := match arraySpec with
        | some n => { td with arraylen := n }
        | none => td
      some (TypeSpec.new td, r2)

/-! ### Default value tokens (src/parser/oso.rs) -/

/-- Default value parsed from a token (`DefaultValue`). -/
inductive DefaultValue where
  | int (i : Int)
  | float (f : F32)
  | str (s : List Char)
deriving DecidableEq

/-- `parse_default_token`: quoted → string (with the token unescape chain);
else try `i32` (the redundant `contains('.')` check is kept); else try
`f32`.  The source would panic on the one-character token `"`, which no
claim exercises; here the slice is simply empty. -/
def parseDefaultToken (t : List Char) : Option DefaultValue :=
  if t.head? == some '"' && t.getLast? == some '"' then
    let content := (t.drop 1).dropLast
    some (.str (unescapeDefaultTok content))
  else
    match parseI32Str t with
    | some i =>
      if !(t.any (fun c => c == '.')) then some (.int i)
      else match parseF32Str t with
        | some f => some (.float f)
        | none => none
    | none =>
      match parseF32Str t with
      | some f => some (.float f)
      | none => none

/-! ### Parameter accumulator (`ParsedParameter`, src/parser/types.rs)

The source struct holds `metadata: Vec<ParsedParameter>` recursively, so the
model is a nested inductive with explicit projections. -/

/-- Intermediate parameter structure for parsing (`ParsedParameter`). -/
inductive ParsedParameter where
  | mk
    (name : List Char)
    (typeDesc : TypeDesc)
    (isOutput : Bool)
    (isStruct : Bool)
    (validDefault : Bool)
    (varlenArray : Bool)
    (idefault : List Int)
    (fdefault : List F32)
    (sdefault : List (List Char))
    (spacename : List (List Char))
    (structname : Option (List Char))
    (fields : List (List Char))
    (metadata : List ParsedParameter)

/-- Projection: `name`. -/
def ParsedParameter.name : ParsedParameter → List Char
  | .mk n _ _ _ _ _ _ _ _ _ _ _ _ => n

/-- Projection: `type_desc`. -/
def ParsedParameter.typeDesc : ParsedParameter → TypeDesc
  | .mk _ td _ _ _ _ _ _ _ _ _ _ _ => td

/-- Projection: `is_output`. -/
def ParsedParameter.isOutput : ParsedParameter → Bool
  | .mk _ _ o _ _ _ _ _ _ _ _ _ _ => o

/-- Projection: `is_struct`. -/
def ParsedParameter.isStruct : ParsedParameter → Bool
  | .mk _ _ _ s _ _ _ _ _ _ _ _ _ => s

/-- Projection: `valid_default`. -/
def ParsedParameter.validDefault : ParsedParameter → Bool
  | .mk _ _ _ _ v _ _ _ _ _ _ _ _ => v

/-- Projection: `varlen_array`. -/
def ParsedParameter.varlenArray : ParsedParameter → Bool
  | .mk _ _ _ _ _ va _ _ _ _ _ _ _ => va

/-- Projection: `idefault`. -/
def ParsedParameter.idefault : ParsedParameter → List Int
  | .mk _ _ _ _ _ _ i _ _ _ _ _ _ => i

/-- Projection: `fdefault`. -/
def ParsedParameter.fdefault : ParsedParameter → List F32
  | .mk _ _ _ _ _ _ _ f _ _ _ _ _ => f

/-- Projection: `sdefault`. -/
def ParsedParameter.sdefault : ParsedParameter → List (List Char)
  | .mk _ _ _ _ _ _ _ _ s _ _ _ _ => s

/-- Projection: `spacename`. -/
def ParsedParameter.spacename : ParsedParameter → List (List Char)
  | .mk _ _ _ _ _ _ _ _ _ sp _ _ _ => sp

/-- Projection: `structname`. -/
def ParsedParameter.structname : ParsedParameter → Option (List Char)
  | .mk _ _ _ _ _ _ _ _ _ _ sn _ _ => sn

/-- Projection: `fields`. -/
def ParsedParameter.fields : ParsedParameter → List (List Char)
  | .mk _ _ _ _ _ _ _ _ _ _ _ fl _ => fl

/-- Projection: `metadata`. -/
def ParsedParameter.metadata : ParsedParameter → List ParsedParameter
  | .mk _ _ _ _ _ _ _ _ _ _ _ _ m => m

/-- `ParsedParameter::new`. -/
def ParsedParameter.new (name : List Char) (td : TypeDesc) : ParsedParameter :=
  .mk name td false false false false [] [] [] [] none [] []

/-- Set the `is_output`, `is_struct` and `varlen_array` flags, as
`handle_symbol` does right after `ParsedParameter::new`. -/
def ParsedParameter.withFlags (p : ParsedParameter)
    (out strct varlen : Bool) : ParsedParameter :=
  match p with
  | .mk n td _ _ v _ i f s sp sn fl m => .mk n td out strct v varlen i f s sp sn fl m

/-- Append to `idefault`. -/
def ParsedParameter.pushIDefault (p : ParsedParameter) (x : Int) : ParsedParameter :=
  match p with
  | .mk n td o st v va i f s sp sn fl m => .mk n td o st v va (i ++ [x]) f s sp sn fl m

/-- Append to `fdefault`. -/
def ParsedParameter.pushFDefault (p : ParsedParameter) (x : F32) : ParsedParameter :=
  match p with
  | .mk n td o st v va i f s sp sn fl m => .mk n td o st v va i (f ++ [x]) s sp sn fl m

/-- Append to `sdefault`. -/
def ParsedParameter.pushSDefault (p : ParsedParameter) (x : List Char) : ParsedParameter :=
  match p with
  | .mk n td o st v va i f s sp sn fl m => .mk n td o st v va i f (s ++ [x]) sp sn fl m

/-- Extend `idefault` by a list. -/
def ParsedParameter.extendIDefault (p : ParsedParameter) (xs : List Int) : ParsedParameter :=
  match p with
  | .mk n td o st v va i f s sp sn fl m => .mk n td o st v va (i ++ xs) f s sp sn fl m

/-- Extend `fdefault` by a list. -/
def ParsedParameter.extendFDefault (p : ParsedParameter) (xs : List F32) : ParsedParameter :=
  match p with
  | .mk n td o st v va i f s sp sn fl m => .mk n td o st v va i (f ++ xs) s sp sn fl m

/-- Extend `sdefault` by a list. -/
def ParsedParameter.extendSDefault (p : ParsedParameter) (xs : List (List Char)) :
    ParsedParameter :=
  match p with
  | .mk n td o st v va i f s sp sn fl m => .mk n td o st v va i f (s ++ xs) sp sn fl m

/-- Set `valid_default`. -/
def ParsedParameter.setValidDefault (p : ParsedParameter) (b : Bool) : ParsedParameter :=
  match p with
  | .mk n td o st _ va i f s sp sn fl m => .mk n td o st b va i f s sp sn fl m

/-- Append to `spacename`. -/
def ParsedParameter.pushSpace (p : ParsedParameter) (x : List Char) : ParsedParameter :=
  match p with
  | .mk n td o st v va i f s sp sn fl m => .mk n td o st v va i f s (sp ++ [x]) sn fl m

/-- Assign `structname` (the source assigns the whole `Option`). -/
def ParsedParameter.setStructname (p : ParsedParameter) (x : Option (List Char)) :
    ParsedParameter :=
  match p with
  | .mk n td o st v va i f s sp _ fl m => .mk n td o st v va i f s sp x fl m

/-- Assign `fields`. -/
def ParsedParameter.setFields (p : ParsedParameter) (x : List (List Char)) :
    ParsedParameter :=
  match p with
  | .mk n td o st v va i f s sp sn _ m => .mk n td o st v va i f s sp sn x m

/-- Append to `metadata`. -/
def ParsedParameter.pushMetadata (p : ParsedParameter) (x : ParsedParameter) :
    ParsedParameter :=
  match p with
  | .mk n td o st v va i f s sp sn fl m => .mk n td o st v va i f s sp sn fl (m ++ [x])

/-! ### Typed parameters (src/types.rs) -/

/-- Three floats, the shape `[f32; 3]` of geometric defaults. -/
structure F3 where
  a : F32
  b : F32
  c : F32
deriving DecidableEq

/-- A typed parameter unifying type information with its potential value
(`TypedParameter`); `[f32; 16]` matrix defaults are lists of the 16 chunk
elements. -/
inductive TypedParameter where
  | int (default : Option Int)
  | float (default : Option F32)
  | string (default : Option (List Char))
  | color (default : Option F3) (space : Option (List Char))
  | point (default : Option F3) (space : Option (List Char))
  | vector (default : Option F3) (space : Option (List Char))
  | normal (default : Option F3) (space : Option (List Char))
  | matrix (default : Option (List F32))
  | intArray (size : Nat) (default : Option (List Int))
  | floatArray (size : Nat) (default : Option (List F32))
  | stringArray (size : Nat) (default : Option (List (List Char)))
  | colorArray (size : Nat) (default : Option (List F3)) (space : Option (List Char))
  | pointArray (size : Nat) (default : Option (List F3)) (space : Option (List Char))
  | vectorArray (size : Nat) (default : Option (List F3)) (space : Option (List Char))
  | normalArray (size : Nat) (default : Option (List F3)) (space : Option (List Char))
  | matrixArray (size : Nat) (default : Option (List (List F32)))
  | intDynamicArray (default : Option (List Int))
  | floatDynamicArray (default : Option (List F32))
  | stringDynamicArray (default : Option (List (List Char)))
  | colorDynamicArray (default : Option (List F3)) (space : Option (List Char))
  | pointDynamicArray (default : Option (List F3)) (space : Option (List Char))
  | vectorDynamicArray (default : Option (List F3)) (space : Option (List Char))
  | normalDynamicArray (default : Option (List F3)) (space : Option (List Char))
  | matrixDynamicArray (default : Option (List (List F32)))
  | closure (closureType : List Char)
deriving DecidableEq

/-- `TypedParameter::has_default`; closures never have defaults. -/
def TypedParameter.hasDefault : TypedParameter → Bool
  | .int d => d.isSome
  | .float d => d.isSome
  | .string d => d.isSome
  | .color d _ => d.isSome
  | .point d _ => d.isSome
  | .vector d _ => d.isSome
  | .normal d _ => d.isSome
  | .matrix d => d.isSome
  | .intArray _ d => d.isSome
  | .floatArray _ d => d.isSome
  | .stringArray _ d => d.isSome
  | .colorArray _ d _ => d.isSome
  | .pointArray _ d _ => d.isSome
  | .vectorArray _ d _ => d.isSome
  | .normalArray _ d _ => d.isSome
  | .matrixArray _ d => d.isSome
  | .intDynamicArray d => d.isSome
  | .floatDynamicArray d => d.isSome
  | .stringDynamicArray d => d.isSome
  | .colorDynamicArray d _ => d.isSome
  | .pointDynamicArray d _ => d.isSome
  | .vectorDynamicArray d _ => d.isSome
  | .normalDynamicArray d _ => d.isSome
  | .matrixDynamicArray d => d.isSome
  | .closure _ => false

/-- `TypedParameter::is_closure`. -/
def TypedParameter.isClosure : TypedParameter → Bool
  | .closure _ => true
  | _ => false

/-- The coordinate-space field of the variants that carry one (`none` for
the variants without a space field). -/
def TypedParameter.spaceOf : TypedParameter → Option (List Char)
  | .color _ sp => sp
  | .point _ sp => sp
  | .vector _ sp => sp
  | .normal _ sp => sp
  | .colorArray _ _ sp => sp
  | .pointArray _ _ sp => sp
  | .vectorArray _ _ sp => sp
  | .normalArray _ _ sp => sp
  | .colorDynamicArray _ sp => sp
  | .pointDynamicArray _ sp => sp
  | .vectorDynamicArray _ sp => sp
  | .normalDynamicArray _ sp => sp
  | _ => none

/-- Metadata value (`MetadataValue`). -/
inductive MetadataValue where
  | int (i : Int)
  | float (f : F32)
  | string (s : List Char)
  | intArray (is : List Int)
  | floatArray (fs : List F32)
  | stringArray (ss : List (List Char))
deriving DecidableEq

/-- Metadata attached to parameters or the shader (`Metadata`). -/
structure Metadata where
  name : List Char
  value : MetadataValue
deriving DecidableEq

/-- Parameter direction wrapper (`ParameterKind`). -/
inductive ParameterKind where
  | input (p : TypedParameter)
  | output (p : TypedParameter)
deriving DecidableEq

/-- `ParameterKind::typed_param`. -/
def ParameterKind.typedParam : ParameterKind → TypedParameter
  | .input p => p
  | .output p => p

/-- `ParameterKind::is_output`. -/
def ParameterKind.isOutput : ParameterKind → Bool
  | .input _ => false
  | .output _ => true

/-- Complete parameter with name and metadata (`Parameter`). -/
structure Parameter where
  name : List Char
  kind : ParameterKind
  metadata : List Metadata
deriving DecidableEq

/-- `Parameter::new_input`. -/
def Parameter.newInput (name : List Char) (tp : TypedParameter) : Parameter :=
  ⟨name, .input tp, []⟩

/-- Strip the default of every variant, as `Parameter::new_output` does to
its argument before wrapping it. -/
def TypedParameter.stripDefault : TypedParameter → TypedParameter
  | .int _ => .int none
  | .float _ => .float none
  | .string _ => .string none
  | .color _ sp => .color none sp
  | .point _ sp => .point none sp
  | .vector _ sp => .vector none sp
  | .normal _ sp => .normal none sp
  | .matrix _ => .matrix none
  | .intArray n _ => .intArray n none
  | .floatArray n _ => .floatArray n none
  | .stringArray n _ => .stringArray n none
  | .colorArray n _ sp => .colorArray n none sp
  | .pointArray n _ sp => .pointArray n none sp
  | .vectorArray n _ sp => .vectorArray n none sp
  | .normalArray n _ sp => .normalArray n none sp
  | .matrixArray n _ => .matrixArray n none
  | .intDynamicArray _ => .intDynamicArray none
  | .floatDynamicArray _ => .floatDynamicArray none
  | .stringDynamicArray _ => .stringDynamicArray none
  | .colorDynamicArray _ sp => .colorDynamicArray none sp
  | .pointDynamicArray _ sp => .pointDynamicArray none sp
  | .vectorDynamicArray _ sp => .vectorDynamicArray none sp
  | .normalDynamicArray _ sp => .normalDynamicArray none sp
  | .matrixDynamicArray _ => .matrixDynamicArray none
  | .closure ct => .closure ct

/-- `Parameter::new_output`: output parameters cannot have defaults, so
they are stripped. -/
def Parameter.newOutput (name : List Char) (tp : TypedParameter) : Parameter :=
  ⟨name, .output tp.stripDefault, []⟩

/-- `Parameter::add_metadata`. -/
def Parameter.addMetadata (p : Parameter) (name : List Char) (v : MetadataValue) :
    Parameter :=
  { p with metadata := p.metadata ++ [⟨name, v⟩] }

/-- `Parameter::is_output`. -/
def Parameter.isOutput (p : Parameter) : Bool :=
  p.kind.isOutput

/-- `Parameter::typed_param`. -/
def Parameter.typedParam (p : Parameter) : TypedParameter :=
  p.kind.typedParam

/-! ### Unification (`TryFrom<ParsedParameter> for Parameter`, src/types.rs) -/

/-- Rust `chunks_exact(3)`: consecutive complete 3-tuples, the trailing
partial chunk dropped. -/
def chunksExact3 : List F32 → List F3
  | a :: b :: c :: rest => ⟨a, b, c⟩ :: chunksExact3 rest
  | _ => []

/-- Rust `chunks_exact(16)`: consecutive complete 16-element chunks, the
trailing partial chunk dropped. -/
def chunksExact16 : List F32 → List (List F32)
  | a1 :: a2 :: a3 :: a4 :: a5 :: a6 :: a7 :: a8 ::
    a9 :: a10 :: a11 :: a12 :: a13 :: a14 :: a15 :: a16 :: rest =>
    [a1, a2, a3, a4, a5, a6, a7, a8, a9, a10, a11, a12, a13, a14, a15, a16] ::
      chunksExact16 rest
  | _ => []

/-- Rust `as usize` on an `i32` value: two's-complement wrap into the 64-bit
unsigned range. -/
def intToUsize (i : Int) : Nat :=
  (i % 18446744073709551616).toNat

/-- The big `let typed_param = match old.type_desc.basetype` of the `TryFrom`
conversion: selects a variant and validates/reshapes the default buffers;
the only failure is a non-closure `none` base type. -/
def convertTyped (p : ParsedParameter) : Except (List Char) TypedParameter :=
  match p.typeDesc.basetype with
  | .int =>
    if p.typeDesc.isArray then
      if p.typeDesc.arraylen == -1 then
        .ok (.intDynamicArray
          (if p.validDefault && !p.idefault.isEmpty then some p.idefault else none))
      else
        .ok (.intArray (intToUsize p.typeDesc.arraylen)
          (if p.validDefault && !p.idefault.isEmpty then some p.idefault else none))
    else
      .ok (.int
        (if p.validDefault && !p.idefault.isEmpty then p.idefault.head? else none))
  | .float =>
    if p.typeDesc.isArray then
      if p.typeDesc.arraylen == -1 then
        .ok (.floatDynamicArray
          (if p.validDefault && !p.fdefault.isEmpty then some p.fdefault else none))
      else
        .ok (.floatArray (intToUsize p.typeDesc.arraylen)
          (if p.validDefault && !p.fdefault.isEmpty then some p.fdefault else none))
    else
      .ok (.float
        (if p.validDefault && !p.fdefault.isEmpty then p.fdefault.head? else none))
  | .string =>
    if p.typeDesc.isArray then
      if p.typeDesc.arraylen == -1 then
        .ok (.stringDynamicArray
          (if p.validDefault && !p.sdefault.isEmpty then some p.sdefault else none))
      else
        .ok (.stringArray (intToUsize p.typeDesc.arraylen)
          (if p.validDefault && !p.sdefault.isEmpty then some p.sdefault else none))
    else
      .ok (.string
        (if p.validDefault && !p.sdefault.isEmpty then p.sdefault.head? else none))
  | .color =>
    let space := p.spacename.head?
    if p.typeDesc.isArray then
      let arrays :=
        if p.validDefault && !p.fdefault.isEmpty then some (chunksExact3 p.fdefault)
        else none
      if p.typeDesc.arraylen == -1 then .ok (.colorDynamicArray arrays space)
      else .ok (.colorArray (intToUsize p.typeDesc.arraylen) arrays space)
    else
      .ok (.color
        (if p.validDefault && 3 ≤ p.fdefault.length then
          match p.fdefault with
          | f0 :: f1 :: f2 :: _ => some ⟨f0, f1, f2⟩
          | _ => none
        else none) space)
  | .point =>
    let space := p.spacename.head?
    if p.typeDesc.isArray then
      let arrays :=
        if p.validDefault && !p.fdefault.isEmpty then some (chunksExact3 p.fdefault)
        else none
      if p.typeDesc.arraylen == -1 then .ok (.pointDynamicArray arrays space)
      else .ok (.pointArray (intToUsize p.typeDesc.arraylen) arrays space)
    else
      .ok (.point
        (if p.validDefault && 3 ≤ p.fdefault.length then
          match p.fdefault with
          | f0 :: f1 :: f2 :: _ => some ⟨f0, f1, f2⟩
          | _ => none
        else none) space)
  | .vector =>
    let space := p.spacename.head?
    if p.typeDesc.isArray then
      let arrays :=
        if p.validDefault && !p.fdefault.isEmpty then some (chunksExact3 p.fdefault)
        else none
      if p.typeDesc.arraylen == -1 then .ok (.vectorDynamicArray arrays space)
      else .ok (.vectorArray (intToUsize p.typeDesc.arraylen) arrays space)
    else
      .ok (.vector
        (if p.validDefault && 3 ≤ p.fdefault.length then
          match p.fdefault with
          | f0 :: f1 :: f2 :: _ => some ⟨f0, f1, f2⟩
          | _ => none
        else none) space)
  | .normal =>
    let space := p.spacename.head?
    if p.typeDesc.isArray then
      let arrays :=
        if p.validDefault && !p.fdefault.isEmpty then some (chunksExact3 p.fdefault)
        else none
      if p.typeDesc.arraylen == -1 then .ok (.normalDynamicArray arrays space)
      else .ok (.normalArray (intToUsize p.typeDesc.arraylen) arrays space)
    else
      .ok (.normal
        (if p.validDefault && 3 ≤ p.fdefault.length then
          match p.fdefault with
          | f0 :: f1 :: f2 :: _ => some ⟨f0, f1, f2⟩
          | _ => none
        else none) space)
  | .matrix =>
    if p.typeDesc.isArray then
      let arrays :=
        if p.validDefault && !p.fdefault.isEmpty then some (chunksExact16 p.fdefault)
        else none
      if p.typeDesc.arraylen == -1 then .ok (.matrixDynamicArray arrays)
      else .ok (.matrixArray (intToUsize p.typeDesc.arraylen) arrays)
    else
      .ok (.matrix
        (if p.validDefault && 16 ≤ p.fdefault.length then
          some (p.fdefault.take 16) else none))
  | .none_ =>
    if p.typeDesc.isClosure then
      .ok (.closure (p.structname.getD "closure".data))
    else
      .error "Cannot convert BaseType::None that is not a closure".data

/-- Priority conversion from an accumulator's buffers to a metadata value
(`idefault` first, then `fdefault`, then `sdefault`; single values scalar,
several an array; all empty yields nothing).  This exact logic appears both
in the `TryFrom` metadata loop and in the reader's global-metadata path. -/
def metadataValueOf (m : ParsedParameter) : Option MetadataValue :=
  if !m.idefault.isEmpty then
    if m.idefault.length == 1 then some (.int (m.idefault.headD 0))
    else some (.intArray m.idefault)
  else if !m.fdefault.isEmpty then
    if m.fdefault.length == 1 then some (.float (m.fdefault.headD (.ofInt 0)))
    else some (.floatArray m.fdefault)
  else if !m.sdefault.isEmpty then
    if m.sdefault.length == 1 then some (.string (m.sdefault.headD []))
    else some (.stringArray m.sdefault)
  else none

/-- One step of the `TryFrom` metadata loop: attach one accumulator's
metadata entry, skipping entries with all buffers empty. -/
def addMetaEntry (param : Parameter) (m : ParsedParameter) : Parameter :=
  match metadataValueOf m with
  | some v => param.addMetadata m.name v
  | none => param

/-- The whole `TryFrom<ParsedParameter> for Parameter` conversion. -/
def tryFromParsed (old : ParsedParameter) : Except (List Char) Parameter :=
  match convertTyped old with
  | .error e => .error e
  | .ok typedParam =>
    let param :=
      if old.isOutput then Parameter.newOutput old.name typedParam
      else Parameter.newInput old.name typedParam
    .ok (old.metadata.foldl addMetaEntry param)

/-! ### Hint micro-grammars (src/parser/hint.rs) -/

/-- Index of the first occurrence of a character (`str::find`). -/
def findCharIdx (c : Char) (l : List Char) : Option Nat :=
  l.findIdx? (fun x => x == c)

/-- Index of the last occurrence of a character (`str::rfind`). -/
def rfindCharIdx (c : Char) (l : List Char) : Option Nat :=
  match (l.reverse).findIdx? (fun x => x == c) with
  | some i => some (l.length - 1 - i)
  | none => none

/-- Worker for `parse_quoted_parts`: one pass with `in_quotes`,
`escape_next` and (for the skip-spaces-after-closing-quote inner loop) a
`skipSp` flag. -/
def pqpGo (parts : List (List Char)) (current : List Char)
    (inQuotes escapeNext skipSp : Bool) : List Char → List (List Char)
  | [] => if current.isEmpty then parts else parts ++ [current]
  | c :: rest =>
    if skipSp && c == ' ' then pqpGo parts current inQuotes escapeNext true rest
    else if escapeNext then pqpGo parts (current ++ [c]) inQuotes false false rest
    else if c == '\\' && inQuotes then pqpGo parts current inQuotes true false rest
    else if c == '"' then
      if inQuotes && !current.isEmpty then
        pqpGo (parts ++ [current]) [] false false true rest
      else pqpGo parts current (!inQuotes) false false rest
    else if c == ' ' && !inQuotes then
      if current.isEmpty then pqpGo parts current inQuotes false false rest
      else pqpGo (parts ++ [current]) [] inQuotes false false rest
    else pqpGo parts (current ++ [c]) inQuotes false false rest

/-- `parse_quoted_parts`: space-separated parts honoring quoted strings. -/
def parseQuotedParts (input : List Char) : List (List Char) :=
  pqpGo [] [] false false false input

/-- `parse_metadata_parts`: build a metadata accumulator from type, name and
value strings; the declared type falls back to `string` on an unknown name,
and numeric values fall back to the original string when they fail to
parse. -/
def parseMetadataParts (typeStr name value : List Char) :
    Except (List Char) ParsedParameter :=
  let basetype := (BaseType.fromStr typeStr).getD .string
  let param := ParsedParameter.new name (TypeDesc.new basetype)
  let param := param.setValidDefault true
  let param :=
    match basetype with
    | .int =>
      match parseI32Str value with
      | some v => param.pushIDefault v
      | none => param.pushSDefault value
    | .float =>
      match parseF32Str value with
      | some v => param.pushFDefault v
      | none => param.pushSDefault value
    | _ => param.pushSDefault value
  .ok param

/-- `parse_metadata_content`: comma-separated form first (only when a comma
is present and it splits into at least 3 parts), else the space-separated
form via `parse_quoted_parts` (2 parts defaulting the type to `string`). -/
def parseMetadataContent (input : List Char) : Except (List Char) ParsedParameter :=
  let commaResult :=
    if containsComma input then
      let parts := (splitOnComma input).map trimAscii
      if 3 ≤ parts.length then
        let value := List.intercalate ",".data (parts.drop 2)
        let value := trimQuotes (trimAscii value)
        some (parseMetadataParts (parts.headD []) ((parts.drop 1).headD []) value)
      else none
    else none
  match commaResult with
  | some r => r
  | none =>
    let parts := parseQuotedParts input
    if 3 ≤ parts.length then
      parseMetadataParts (parts.headD []) ((parts.drop 1).headD [])
        (List.intercalate " ".data (parts.drop 2))
    else if parts.length == 2 then
      parseMetadataParts "string".data (parts.headD []) ((parts.drop 1).headD [])
    else .error "Invalid metadata format".data

/-- `parse_metadata_hint`: strip a `%meta` prefix when present, take the
content up to the first closing brace (or end of input), and parse it. -/
def parseMetadataHint (input : List Char) :
    Option (ParsedParameter × List Char) :=
  let input :=
    if "%meta\x7b".data.isPrefixOf input then input.drop 6 else input
  let endIdx := (findCharIdx '\x7d' input).getD input.length
  let content := input.take endIdx
  let rest := if endIdx < input.length then input.drop (endIdx + 1) else []
  match parseMetadataContent content with
  | .ok meta => some (meta, rest)
  | .error _ => none

/-- Content between the first `{` and the last `}` of a hint token (used by
the struct-fields, struct-name, space and default hints).  In every routed
call the prefix guarantees the first brace precedes any closing brace, so
the slice is the source's `&input[start + 1..end]`. -/
def hintBraceContent (input : List Char) : Option (List Char) :=
  match findCharIdx '\x7b' input with
  | none => none
  | some start =>
    match rfindCharIdx '\x7d' input with
    | none => none
    | some stop => some ((input.drop (start + 1)).take (stop - (start + 1)))

/-- `parse_structfields_hint`: comma-separated identifier list, trimmed,
empty entries dropped; an empty result is `None`. -/
def parseStructfieldsHint (input : List Char) : Option (List (List Char)) :=
  match hintBraceContent input with
  | none => none
  | some content =>
    let fields := ((splitOnComma content).map trimAscii).filter
      (fun f => !f.isEmpty)
    if fields.isEmpty then none else some fields

/-- `parse_struct_hint`: single quoted-or-bare name. -/
def parseStructHint (input : List Char) : Option (List Char) :=
  match hintBraceContent input with
  | none => none
  | some content =>
    let name := trimQuotes (trimAscii content)
    if !name.isEmpty then some name else none

/-- `parse_space_hint`: single quoted-or-bare name. -/
def parseSpaceHint (input : List Char) : Option (List Char) :=
  match hintBraceContent input with
  | none => none
  | some content =>
    let space := trimQuotes (trimAscii content)
    if !space.isEmpty then some space else none

/-- `parse_default_hint`: bracketed content splits on commas with quotes
stripped per element, non-bracketed content is one value. -/
def parseDefaultHint (input : List Char) : Option (List (List Char)) :=
  match hintBraceContent input with
  | none => none
  | some raw =>
    let content := trimAscii raw
    if content.isEmpty then none
    else
      let values :=
        if content.head? == some '[' && content.getLast? == some ']' then
          let arrayContent := (content.drop 1).dropLast
          ((splitOnComma arrayContent).map (fun e => trimQuotes (trimAscii e))).filter
            (fun s => !s.isEmpty)
        else [trimQuotes content]
      if values.isEmpty then none else some values

/-! ### Parse errors (src/parser/mod.rs) and query model (src/query.rs) -/

/-- Errors that can occur during OSO parsing (`ParseError`). -/
inductive ParseError where
  | io (msg : List Char)
  | invalidFormat (msg : List Char)
  | unsupportedVersion (major minor : Int)
  | parseErr (line : Nat) (message : List Char) (tokenInfo : Option (List Char × Nat))
  | incomplete (msg : List Char)
  | conversion (msg : List Char)
deriving DecidableEq

/-- Main structure for querying OSL shader information (`OslQuery`). -/
structure OslQuery where
  shaderName : List Char
  shaderType : List Char
  parameters : List Parameter
  metadata : List Metadata
deriving DecidableEq

/-- `OslQuery::new`: the empty query. -/
def OslQuery.new : OslQuery :=
  ⟨[], [], [], []⟩

/-- `OslQuery::set_shader_info`. -/
def OslQuery.setShaderInfo (q : OslQuery) (stype sname : List Char) : OslQuery :=
  { q with shaderType := stype, shaderName := sname }

/-- `OslQuery::add_parameter`. -/
def OslQuery.addParameter (q : OslQuery) (p : Parameter) : OslQuery :=
  { q with parameters := q.parameters ++ [p] }

/-- `OslQuery::add_metadata`. -/
def OslQuery.addMetadata (q : OslQuery) (m : Metadata) : OslQuery :=
  { q with metadata := q.metadata ++ [m] }

/-- `OslQuery::param_by_name`: first match wins. -/
def OslQuery.paramByName (q : OslQuery) (name : List Char) : Option Parameter :=
  q.parameters.find? (fun p => p.name == name)

/-! ### Line dispatcher (`OsoReader`, src/parser/reader.rs) -/

/-- Reader state: line number, the parameter being read, and the
`reading_param` flag. -/
structure OsoReader where
  lineNo : Nat
  currentParam : Option ParsedParameter
  readingParam : Bool

/-- `OsoReader::new`. -/
def OsoReader.new : OsoReader :=
  ⟨1, none, false⟩

/-- `finish_current_param`: commit the open accumulator (dropping it when
unification fails, which only prints a diagnostic) and clear
`reading_param`. -/
def finishCurrentParam (st : OsoReader) (q : OslQuery) : OsoReader × OslQuery :=
  match st.currentParam with
  | some p =>
    let q :=
      match tryFromParsed p with
      | .ok param => q.addParameter param
      | .error _ => q
    (⟨st.lineNo, none, false⟩, q)
  | none => (⟨st.lineNo, none, false⟩, q)

/-- `handle_symbol`: finish any previous parameter, then open a new
accumulator for `param`/`oparam` and skip the other kinds. -/
def handleSymbol (st : OsoReader) (q : OslQuery) (symtype : SymType)
    (typespec : TypeSpec) (name : List Char) : OsoReader × OslQuery :=
  let (st1, q1) := finishCurrentParam st q
  match symtype with
  | .param | .outputParam =>
    let param := (ParsedParameter.new name typespec.simpletype).withFlags
      (symtype == .outputParam) typespec.isStructure typespec.isUnsizedArray
    ({ st1 with currentParam := some param, readingParam := true }, q1)
  | _ => ({ st1 with readingParam := false }, q1)

/-- Update the open parameter if there is one (the `if let Some(ref mut
param) = self.current_param` pattern). -/
def updateCurrent (st : OsoReader) (f : ParsedParameter → ParsedParameter) :
    OsoReader :=
  match st.currentParam with
  | some p => { st with currentParam := some (f p) }
  | none => st

/-- `parse_metadata` (reader side): a parsed `%meta` hint goes to the open
parameter in parameter context, else to the query's global metadata with
the buffer-priority conversion. -/
def readMetadataHint (st : OsoReader) (q : OslQuery) (hintStr : List Char) :
    OsoReader × OslQuery :=
  match parseMetadataHint hintStr with
  | some (meta, _) =>
    if st.readingParam then
      (updateCurrent st (fun p => p.pushMetadata meta), q)
    else
      match metadataValueOf meta with
      | some v => (st, q.addMetadata ⟨meta.name, v⟩)
      | none => (st, q)
  | none => (st, q)

/-- `parse_default_hint` (reader side): values are parsed according to the
open parameter's base type and appended to the matching buffer, then the
valid-default flag is set. -/
def readDefaultHint (st : OsoReader) (hintStr : List Char) : OsoReader :=
  match st.currentParam with
  | none => st
  | some p =>
    match parseDefaultHint hintStr with
    | none => st
    | some values =>
      let p :=
        match p.typeDesc.basetype with
        | .int => p.extendIDefault (values.filterMap parseI32Str)
        | .float | .color | .point | .vector | .normal | .matrix =>
          p.extendFDefault (values.filterMap parseF32Str)
        | .string => p.extendSDefault values
        | _ => p
      { st with currentParam := some (p.setValidDefault true) }

/-- `handle_hint`: dispatch on the hint prefix.  Every arm of the source
returns `Ok(())`, so the model is a pure state update. -/
def handleHint (st : OsoReader) (q : OslQuery) (hintStr : List Char) :
    OsoReader × OslQuery :=
  if "%meta\x7b".data.isPrefixOf hintStr then
    readMetadataHint st q hintStr
  else if st.readingParam && "%structfields\x7b".data.isPrefixOf hintStr then
    (updateCurrent st (fun p =>
      match parseStructfieldsHint hintStr with
      | some fields => p.setFields fields
      | none => p), q)
  else if st.readingParam && "%struct\x7b".data.isPrefixOf hintStr then
    (updateCurrent st (fun p => p.setStructname (parseStructHint hintStr)), q)
  else if st.readingParam && "%space\x7b".data.isPrefixOf hintStr then
    (updateCurrent st (fun p =>
      match parseSpaceHint hintStr with
      | some space => p.pushSpace space
      | none => p), q)
  else if st.readingParam && "%default\x7b".data.isPrefixOf hintStr then
    (readDefaultHint st hintStr, q)
  else if st.readingParam && hintStr == "%initexpr".data then
    (updateCurrent st (fun p => p.setValidDefault false), q)
  else (st, q)

/-- One default-value token on a symbol line: push to the buffer matching
the base type (`i32` values go to `fdefault` for the float-based types) and
set the valid-default flag, when both the token parses and a parameter is
open. -/
def applyDefaultTok (st : OsoReader) (tok : List Char) : OsoReader :=
  match parseDefaultToken tok with
  | none => st
  | some d =>
    match st.currentParam with
    | none => st
    | some p =>
      let p :=
        match d with
        | .int i =>
          match p.typeDesc.basetype with
          | .float | .color | .point | .vector | .normal | .matrix =>
            p.pushFDefault (.ofInt i)
          | _ => p.pushIDefault i
        | .float f => p.pushFDefault f
        | .str s => p.pushSDefault s
      { st with currentParam := some (p.setValidDefault true) }

/-- The first remaining-token loop of `try_parse_symbol_line`: consume
default-value tokens until the first `%`-prefixed token. -/
def applyDefaults (st : OsoReader) : List (List Char) → OsoReader × List (List Char)
  | [] => (st, [])
  | t :: ts =>
    if t.head? == some '%' then (st, t :: ts)
    else applyDefaults (applyDefaultTok st t) ts

/-- The hint loops: walk the remaining tokens, handling each `%`-prefixed
one (used both by the symbol-line tail and the shader-line tail). -/
def applyHintTokens (st : OsoReader) (q : OslQuery) :
    List (List Char) → OsoReader × OslQuery
  | [] => (st, q)
  | t :: ts =>
    if t.head? == some '%' then
      let (st1, q1) := handleHint st q t
      applyHintTokens st1 q1 ts
    else applyHintTokens st q ts

/-- `try_parse_symbol_line`: tokenize, require a symbol-kind first token and
at least 3 tokens, parse the type (the two-token closure form consuming a
4th token), open the symbol, then consume defaults and hints.  `Ok(false)`
means the line was not treated as a symbol line. -/
def tryParseSymbolLine (st : OsoReader) (q : OslQuery) (line : List Char) :
    Except ParseError (Bool × OsoReader × OslQuery) :=
  let tokens := tokenizeLine line
  match tokens.head? with
  | none => .ok (false, st, q)
  | some t0 =>
    match parseSymtype t0 with
    | none => .ok (false, st, q)
    | some (symtype, _) =>
      if tokens.length < 3 then .ok (false, st, q)
      else
        let t1 := (tokens.drop 1).headD []
        let step : Except ParseError (TypeSpec × Nat) :=
          if t1 == "closure".data then
            if tokens.length < 4 then
              .error (.parseErr st.lineNo
                "Incomplete closure type specification".data (some (t1, 1)))
            else
              let closureSpec := t1 ++ [' '] ++ (tokens.drop 2).headD []
              match parseTypespec closureSpec with
              | some (ts, _) => .ok (ts, 3)
              | none =>
                .error (.parseErr st.lineNo
                  ("Invalid closure type: ".data ++ t1 ++ [' '] ++
                    (tokens.drop 2).headD []) (some (t1, 1)))
          else
            match parseTypespec t1 with
            | some (ts, _) => .ok (ts, 2)
            | none =>
              .error (.parseErr st.lineNo
                ("Invalid type specification: ".data ++ t1) (some (t1, 1)))
        match step with
        | .error e => .error e
        | .ok (typespec, nextTokenIdx) =>
          let name := (tokens.drop nextTokenIdx).headD []
          let (st1, q1) := handleSymbol st q symtype typespec name
          let (st2, hintToks) := applyDefaults st1 (tokens.drop (nextTokenIdx + 1))
          let (st3, q2) := applyHintTokens st2 q1 hintToks
          .ok (true, st3, q2)

/-- Whether a line opens a shader declaration
(`shader `/`surface `/`displacement `/`volume `). -/
def startsShaderKeyword (line : List Char) : Bool :=
  "shader ".data.isPrefixOf line || "surface ".data.isPrefixOf line ||
  "displacement ".data.isPrefixOf line || "volume ".data.isPrefixOf line

/-- The per-line loop of `parse_string`: skip blank/comment lines, then try
version, shader, symbol, code-section and hint directives in the source's
order; anything else is ignored.  The end of the lines (and the code
marker) finishes the open parameter. -/
def parseLines (st : OsoReader) (q : OslQuery) :
    List (List Char) → Except ParseError OslQuery
  | [] => .ok (finishCurrentParam st q).2
  | line :: rest =>
    if (trimAscii line).isEmpty || (trimStartAscii line).head? == some '#' then
      parseLines { st with lineNo := st.lineNo + 1 } q rest
    else
      match parseVersion line with
      | some ((major, minor), _) =>
        if major < 1 then .error (.unsupportedVersion major minor)
        else parseLines { st with lineNo := st.lineNo + 1 } q rest
      | none =>
        if startsShaderKeyword line then
          match parseShader line with
          | some ((stype, sname), restChars) =>
            let q1 := q.setShaderInfo stype sname
            let (st1, q2) := applyHintTokens st q1 (tokenizeLine restChars)
            parseLines { st1 with lineNo := st1.lineNo + 1 } q2 rest
          | none => parseLines { st with lineNo := st.lineNo + 1 } q rest
        else
          match tryParseSymbolLine st q line with
          | .error e => .error e
          | .ok (true, st1, q1) =>
            parseLines { st1 with lineNo := st1.lineNo + 1 } q1 rest
          | .ok (false, st1, q1) =>
            if "code".data.isPrefixOf line then
              -- break out of the loop; the final finish after the loop runs next
              let (st2, q2) := finishCurrentParam st1 q1
              .ok (finishCurrentParam st2 q2).2
            else if line.head? == some '%' then
              let (st2, q2) := handleHint st1 q1 line
              parseLines { st2 with lineNo := st2.lineNo + 1 } q2 rest
            else parseLines { st1 with lineNo := st1.lineNo + 1 } q1 rest

/-- `OsoReader::parse_string`: split into lines and run the dispatcher from
the initial state on the empty query. -/
def parseString (content : List Char) : Except ParseError OslQuery :=
  parseLines OsoReader.new OslQuery.new (splitLines content)

/-- A line matching none of the dispatcher's directives, built from the
code's own recognizers: blank or a `#` comment, or failing all of the
version pattern, the shader-keyword guard, the symbol-kind first token
(prefix match), the code marker and the `%` hint start. -/
def lineUnrecognized (line : List Char) : Bool :=
  ((trimAscii line).isEmpty || (trimStartAscii line).head? == some '#') ||
  ((parseVersion line).isNone && !(startsShaderKeyword line) &&
    (match (tokenizeLine line).head? with
      | none => true
      | some t0 => (parseSymtype t0).isNone) &&
    !("code".data.isPrefixOf line) && !(line.head? == some '%'))

/-! ## Theorems -/

/-- Once the closing-quote scan is running and no quote character remains,
the tokenizer consumes the rest of the line into the open token. -/
theorem tokenizeGo_quoted_noclose (cs : List Char) :
    ∀ (toks : List (List Char)) (acc : List Char), '"' ∉ cs →
      tokenizeGo toks (.quoted acc) cs = toks ++ [acc ++ cs] := by
  induction cs with
  | nil => intro toks acc _; simp [tokenizeGo, tokEnd]
  | cons c rest ih =>
    intro toks acc h
    have hc : c ≠ '"' := fun hq => h (hq ▸ List.mem_cons_self c rest)
    have hrest : '"' ∉ rest := fun hm => h (List.mem_cons_of_mem c hm)
    simp only [tokenizeGo, tokStep]
    rw [if_neg (by simp [hc])]
    rw [ih (toks) (acc ++ [c]) hrest]
    simp

/-- Once the brace scan is running at positive depth and no closing brace
remains, the tokenizer consumes the rest of the line into the open token. -/
theorem tokenizeGo_hint_noclose (cs : List Char) :
    ∀ (toks : List (List Char)) (acc : List Char) (depth : Int), 1 ≤ depth →
      '\x7d' ∉ cs →
      tokenizeGo toks (.hintMode depth acc) cs = toks ++ [acc ++ cs] := by
  induction cs with
  | nil => intro toks acc depth _ _; simp [tokenizeGo, tokEnd]
  | cons c rest ih =>
    intro toks acc depth hd h
    have hc : c ≠ '\x7d' := fun hq => h (hq ▸ List.mem_cons_self c rest)
    have hrest : '\x7d' ∉ rest := fun hm => h (List.mem_cons_of_mem c hm)
    simp only [tokenizeGo, tokStep]
    by_cases hb : c = '\x7b'
    · subst hb
      rw [if_pos (by simp)]
      rw [ih toks (acc ++ ['\x7b']) (depth + 1) (by omega) hrest]
      simp
    · rw [if_neg (by simp [hb]), if_neg (by simp [hc])]
      rw [if_neg (by simp; omega)]
      rw [ih toks (acc ++ [c]) depth hd hrest]
      simp

/-- Running the brace scan at depth 0 over plain characters, then an opening
brace that is never matched, consumes the rest of the line. -/
theorem tokenizeGo_hint_open (pre : List Char) :
    ∀ (suf : List Char) (toks : List (List Char)) (acc : List Char),
      (∀ c ∈ pre, c ≠ '\x7b' ∧ c ≠ '\x7d' ∧ wsChar c = false) →
      '\x7d' ∉ suf →
      tokenizeGo toks (.hintMode 0 acc) (pre ++ '\x7b' :: suf) =
        toks ++ [acc ++ pre ++ '\x7b' :: suf] := by
  induction pre with
  | nil =>
    intro suf toks acc _ hsuf
    simp only [List.nil_append, tokenizeGo, tokStep]
    rw [if_pos (by simp)]
    show tokenizeGo toks (.hintMode (0 + 1) (acc ++ ['\x7b'])) suf = _
    rw [tokenizeGo_hint_noclose suf toks (acc ++ ['\x7b']) (0 + 1) (by omega) hsuf]
    simp
  | cons c pre' ih =>
    intro suf toks acc hpre hsuf
    have hc := hpre c (List.mem_cons_self c pre')
    simp only [List.cons_append, tokenizeGo, tokStep]
    rw [if_neg (by simp [hc.1]), if_neg (by simp [hc.2.1])]
    rw [if_neg (by simp [hc.2.2])]
    show tokenizeGo toks (.hintMode 0 (acc ++ [c])) (pre' ++ '\x7b' :: suf) = _
    rw [ih suf toks (acc ++ [c]) (fun x hx => hpre x (List.mem_cons_of_mem c hx)) hsuf]
    simp

/-- C5: the tokenizer treats a quoted string and a brace-balanced hint block
as one atomic token even with embedded whitespace; the tab-separated line
`param color c 1 1 1 %meta{string,label,"Color"}` tokenizes to exactly 7
tokens, the last being the whole `%meta{...}` block. -/
theorem c5_tokenize_atomic_blocks :
    tokenizeLine "param\tcolor\tc\t1 1 1\t%meta\x7bstring,label,\"Color\"\x7d".data =
      ["param".data, "color".data, "c".data, "1".data, "1".data, "1".data,
        "%meta\x7bstring,label,\"Color\"\x7d".data] ∧
    (tokenizeLine
        "param\tcolor\tc\t1 1 1\t%meta\x7bstring,label,\"Color\"\x7d".data).length = 7 ∧
    (tokenizeLine
        "param\tcolor\tc\t1 1 1\t%meta\x7bstring,label,\"Color\"\x7d".data).getLast? =
      some "%meta\x7bstring,label,\"Color\"\x7d".data := by
  refine ⟨by decide, by decide, by decide⟩

/-- C6: an unterminated quoted string, and an unterminated `%...{` brace
block, extend to the end of the line and come back as the final token; the
tokenizer is a total function, so no error is raised.  The first two parts
quantify over every tokenizer state (`toks` tokens already emitted, `acc`
the token open at that point), hence over every position in every line at
which such a token can start; the last two instantiate to whole lines. -/
theorem c6_unterminated_extends_to_eol :
    (∀ (toks : List (List Char)) (acc : Option (List Char)) (rest : List Char),
      '"' ∉ rest →
      tokenizeGo toks (.plain acc) ('"' :: rest) =
        toks ++ [acc.getD [] ++ '"' :: rest]) ∧
    (∀ (toks : List (List Char)) (acc : Option (List Char)) (pre suf : List Char),
      (∀ c ∈ pre, c ≠ '\x7b' ∧ c ≠ '\x7d' ∧ wsChar c = false) → '\x7d' ∉ suf →
      tokenizeGo toks (.plain acc) ('%' :: (pre ++ '\x7b' :: suf)) =
        toks ++ [acc.getD [] ++ '%' :: (pre ++ '\x7b' :: suf)]) ∧
    (∀ rest : List Char, '"' ∉ rest →
      (tokenizeLine ('"' :: rest)).getLast? = some ('"' :: rest)) ∧
    (∀ pre suf : List Char,
      (∀ c ∈ pre, c ≠ '\x7b' ∧ c ≠ '\x7d' ∧ wsChar c = false) → '\x7d' ∉ suf →
      (tokenizeLine ('%' :: (pre ++ '\x7b' :: suf))).getLast? =
        some ('%' :: (pre ++ '\x7b' :: suf))) := by
  have hq : ∀ (toks : List (List Char)) (acc : Option (List Char)) (rest : List Char),
      '"' ∉ rest →
      tokenizeGo toks (.plain acc) ('"' :: rest) =
        toks ++ [acc.getD [] ++ '"' :: rest] := by
    intro toks acc rest h
    simp only [tokenizeGo, tokStep]
    rw [if_pos (by simp)]
    rw [tokenizeGo_quoted_noclose rest toks (acc.getD [] ++ ['"']) h]
    simp
  have hh : ∀ (toks : List (List Char)) (acc : Option (List Char)) (pre suf : List Char),
      (∀ c ∈ pre, c ≠ '\x7b' ∧ c ≠ '\x7d' ∧ wsChar c = false) → '\x7d' ∉ suf →
      tokenizeGo toks (.plain acc) ('%' :: (pre ++ '\x7b' :: suf)) =
        toks ++ [acc.getD [] ++ '%' :: (pre ++ '\x7b' :: suf)] := by
    intro toks acc pre suf hpre hsuf
    simp only [tokenizeGo, tokStep]
    rw [if_neg (by simp), if_pos (by simp)]
    rw [tokenizeGo_hint_open pre suf toks (acc.getD [] ++ ['%']) hpre hsuf]
    simp
  refine ⟨hq, hh, ?_, ?_⟩
  · intro rest h
    rw [show tokenizeLine ('"' :: rest) = tokenizeGo [] (.plain none) ('"' :: rest) from rfl]
    rw [hq [] none rest h]
    simp
  · intro pre suf hpre hsuf
    rw [show tokenizeLine ('%' :: (pre ++ '\x7b' :: suf)) =
      tokenizeGo [] (.plain none) ('%' :: (pre ++ '\x7b' :: suf)) from rfl]
    rw [hh [] none pre suf hpre hsuf]
    simp

/-- Stripping defaults leaves no variant with a default. -/
theorem stripDefault_hasDefault (tp : TypedParameter) :
    tp.stripDefault.hasDefault = false := by
  cases tp <;> simp [TypedParameter.stripDefault, TypedParameter.hasDefault]

/-- Attaching one metadata entry preserves the parameter kind. -/
theorem addMetaEntry_kind (p : Parameter) (m : ParsedParameter) :
    (addMetaEntry p m).kind = p.kind := by
  unfold addMetaEntry
  cases metadataValueOf m <;> simp [Parameter.addMetadata]

/-- The metadata loop preserves the parameter kind. -/
theorem foldl_addMetaEntry_kind (ms : List ParsedParameter) :
    ∀ p : Parameter, (ms.foldl addMetaEntry p).kind = p.kind := by
  induction ms with
  | nil => intro p; rfl
  | cons m ms ih =>
    intro p
    rw [List.foldl_cons, ih (addMetaEntry p m), addMetaEntry_kind]

/-- C1: an `oparam` line opens an accumulator marked output, and unification
of any output-marked accumulator yields a parameter with no default,
regardless of the default buffers and flags the accumulator collected. -/
theorem c1_oparam_default_absent :
    (∀ (st : OsoReader) (q : OslQuery) (ts : TypeSpec) (name : List Char),
      ((handleSymbol st q .outputParam ts name).1.currentParam).map
        ParsedParameter.isOutput = some true) ∧
    (∀ (p : ParsedParameter) (param : Parameter),
      p.isOutput = true → tryFromParsed p = .ok param →
      param.typedParam.hasDefault = false) := by
  constructor
  · intro st q ts name
    cases hc : st.currentParam <;>
      simp [handleSymbol, finishCurrentParam, hc, ParsedParameter.withFlags,
        ParsedParameter.new, ParsedParameter.isOutput]
  · intro p param ho hok
    unfold tryFromParsed at hok
    cases hct : convertTyped p with
    | error e => rw [hct] at hok; exact absurd hok (by simp)
    | ok tp =>
      rw [hct] at hok
      rw [ho] at hok
      simp only [if_true] at hok
      cases hok
      rw [Parameter.typedParam, foldl_addMetaEntry_kind]
      simp [Parameter.newOutput, ParameterKind.typedParam, stripDefault_hasDefault]

/-- Witness for C1: an output float accumulator that collected a default
value still unifies to a parameter without a default. -/
theorem c1_oparam_default_absent_witness :
    (ParsedParameter.mk "f".data (TypeDesc.new .float) true false true false
        [] [.ofInt 1] [] [] none [] []).isOutput = true ∧
    tryFromParsed (ParsedParameter.mk "f".data (TypeDesc.new .float) true false true
        false [] [.ofInt 1] [] [] none [] []) =
      .ok ⟨"f".data, .output (.float none), []⟩ ∧
    (Parameter.mk "f".data (.output (.float none)) []).typedParam.hasDefault = false := by
  refine ⟨rfl, rfl, ?_⟩
  exact c1_oparam_default_absent.2
    (ParsedParameter.mk "f".data (TypeDesc.new .float) true false true false
      [] [.ofInt 1] [] [] none [] [])
    ⟨"f".data, .output (.float none), []⟩ rfl rfl

/-- C2 counterexample: the two-token closure declaration
`param closure color f 1 1 1` unifies to the `Color` variant — not the
`Closure` variant — and it carries the default built from the three default
tokens, contradicting both halves of the claim. -/
theorem c2_closure_form_counterexample :
    parseString "param closure color f 1 1 1".data =
      .ok ⟨[], [], [⟨"f".data,
        .input (.color (some ⟨.ofInt 1, .ofInt 1, .ofInt 1⟩) none), []⟩], []⟩ ∧
    (TypedParameter.color (some ⟨.ofInt 1, .ofInt 1, .ofInt 1⟩) none).isClosure
      = false ∧
    (TypedParameter.color (some ⟨.ofInt 1, .ofInt 1, .ofInt 1⟩) none).hasDefault
      = true := by
  refine ⟨rfl, rfl, rfl⟩

/-- C2 amended: the two-token closure form produces a `color` base type with
the closure flag set, so unification routes it through the `Color` branch;
the `Closure` variant of the typed parameter arises exactly from a `none`
base type (necessarily with the closure flag, a non-closure `none` being a
conversion error), which the type grammar never produces. -/
theorem c2_closure_form_amended :
    (∀ (s : List Char) (td : TypeDesc) (r : List Char),
      parseClosure s = some (td, r) → td.basetype = .color ∧ td.isClosure = true) ∧
    (∀ (p : ParsedParameter) (tp : TypedParameter),
      convertTyped p = .ok tp →
      (tp.isClosure = true ↔ p.typeDesc.basetype = .none_)) := by
  constructor
  · intro s td r h
    unfold parseClosure at h
    cases h1 : pTag "closure".data s with
    | none => simp only [h1] at h; exact Option.noConfusion h
    | some pr1 =>
      obtain ⟨a1, r1⟩ := pr1
      simp only [h1] at h
      cases h2 : pSpace1 r1 with
      | none => simp only [h2] at h; exact Option.noConfusion h
      | some pr2 =>
        obtain ⟨a2, r2⟩ := pr2
        simp only [h2] at h
        cases h3 : pTag "color".data r2 with
        | none => simp only [h3] at h; exact Option.noConfusion h
        | some pr3 =>
          obtain ⟨a3, r3⟩ := pr3
          simp only [h3] at h
          cases h4 : (parseArraySuffix r3).1 with
          | none => simp only [h4] at h; cases h; exact ⟨rfl, rfl⟩
          | some n => simp only [h4] at h; cases h; exact ⟨rfl, rfl⟩
  · intro p tp h
    unfold convertTyped at h
    cases hb : p.typeDesc.basetype <;> simp only [hb] at h
    all_goals repeat split at h
    all_goals cases h
    all_goals simp [TypedParameter.isClosure, hb]

/-- Witness for C2's amended statement: `closure color` parses to the
closure-flagged color descriptor, and a closure-flagged `none` accumulator
unifies to the `Closure` variant. -/
theorem c2_closure_form_amended_witness :
    parseClosure "closure color".data =
      some (⟨.color, 0, true⟩, []) ∧
    (⟨.color, 0, true⟩ : TypeDesc).basetype = .color ∧
    (⟨.color, 0, true⟩ : TypeDesc).isClosure = true ∧
    convertTyped (ParsedParameter.mk "c".data ⟨.none_, 0, true⟩ false false false
        false [] [] [] [] none [] []) = .ok (.closure "closure".data) ∧
    ((TypedParameter.closure "closure".data).isClosure = true ↔
      (ParsedParameter.mk "c".data ⟨.none_, 0, true⟩ false false false
        false [] [] [] [] none [] []).typeDesc.basetype = .none_) := by
  refine ⟨rfl, ?_, ?_, rfl, ?_⟩
  · exact (c2_closure_form_amended.1 "closure color".data ⟨.color, 0, true⟩ []
      rfl).1
  · exact (c2_closure_form_amended.1 "closure color".data ⟨.color, 0, true⟩ []
      rfl).2
  · exact c2_closure_form_amended.2
      (ParsedParameter.mk "c".data ⟨.none_, 0, true⟩ false false false
        false [] [] [] [] none [] [])
      (.closure "closure".data) rfl

/-- Complete leading 3-tuples: flattening the exact chunks recovers exactly
the longest multiple-of-3 prefix of the buffer, so a trailing partial tuple
is dropped. -/
theorem chunksExact3_flatten : ∀ (l : List F32),
    ((chunksExact3 l).map (fun t => [t.a, t.b, t.c])).flatten =
      l.take (3 * (l.length / 3))
  | [] => by simp [chunksExact3]
  | [a] => by simp [chunksExact3]
  | [a, b] => by simp [chunksExact3]
  | a :: b :: c :: rest => by
    have ih := chunksExact3_flatten rest
    have h3 : (3 : Nat) * ((rest.length + 1 + 1 + 1) / 3) = 3 * (rest.length / 3) + 2 + 1 := by
      omega
    simp only [chunksExact3, List.map_cons, List.flatten_cons, List.length_cons, h3, ih]
    simp [List.take_succ_cons, Nat.add_assoc]

/-- C3 counterexample: the scalar color accumulator built from
`param color c 1 2 3 4` has a 4-element float buffer — not a multiple of
3 — yet the resulting variant carries the default `(1, 2, 3)` rather than
no default. -/
theorem c3_partial_tuple_counterexample :
    parseString "param color c 1 2 3 4".data =
      .ok ⟨[], [], [⟨"c".data,
        .input (.color (some ⟨.ofInt 1, .ofInt 2, .ofInt 3⟩) none), []⟩], []⟩ ∧
    ¬ (3 ∣ 4) ∧
    (TypedParameter.color (some ⟨.ofInt 1, .ofInt 2, .ofInt 3⟩) none).hasDefault
      = true := by
  refine ⟨rfl, by decide, rfl⟩

/-- C3 amended: for a scalar geometric parameter the default is absent
exactly when the buffer is shorter than one tuple (divisibility does not
matter: with at least one full tuple the first tuple becomes the default
and the surplus is ignored); for geometric arrays the buffer is grouped
into complete leading tuples and a trailing partial tuple is silently
dropped. -/
theorem c3_geometric_grouping_amended :
    (∀ p : ParsedParameter, p.typeDesc.basetype = .color →
      p.typeDesc.arraylen = 0 → p.validDefault = true → p.fdefault.length < 3 →
      convertTyped p = .ok (.color none p.spacename.head?)) ∧
    (∀ (p : ParsedParameter) (f0 f1 f2 : F32) (rest : List F32),
      p.typeDesc.basetype = .color → p.typeDesc.arraylen = 0 →
      p.validDefault = true → p.fdefault = f0 :: f1 :: f2 :: rest →
      convertTyped p = .ok (.color (some ⟨f0, f1, f2⟩) p.spacename.head?)) ∧
    (∀ p : ParsedParameter, p.typeDesc.basetype = .color →
      p.typeDesc.arraylen = -1 → p.validDefault = true → p.fdefault ≠ [] →
      convertTyped p =
        .ok (.colorDynamicArray (some (chunksExact3 p.fdefault)) p.spacename.head?)) ∧
    (∀ p : ParsedParameter, p.typeDesc.basetype = .matrix →
      p.typeDesc.arraylen = 0 → p.validDefault = true → p.fdefault.length < 16 →
      convertTyped p = .ok (.matrix none)) ∧
    (∀ l : List F32,
      ((chunksExact3 l).map (fun t => [t.a, t.b, t.c])).flatten =
        l.take (3 * (l.length / 3))) := by
  refine ⟨?_, ?_, ?_, ?_, chunksExact3_flatten⟩
  · intro p hb ha hv hl
    unfold convertTyped
    rw [hb]
    simp [TypeDesc.isArray, ha]
    omega
  · intro p f0 f1 f2 rest hb ha hv hf
    unfold convertTyped
    rw [hb]
    simp [TypeDesc.isArray, ha, hv, hf]
  · intro p hb ha hv hf
    unfold convertTyped
    rw [hb]
    simp [TypeDesc.isArray, ha, hv, hf]
  · intro p hb ha hv hl
    unfold convertTyped
    rw [hb]
    simp [TypeDesc.isArray, ha]
    omega

/-- Witness for C3's amended statement at concrete accumulators: a 2-float
scalar color (no default), a 4-float scalar color (default is the first
tuple), and a 4-float dynamic color array (one complete tuple kept). -/
theorem c3_geometric_grouping_amended_witness :
    convertTyped (ParsedParameter.mk "c".data ⟨.color, 0, false⟩ false false true
        false [] [.ofInt 1, .ofInt 2] [] [] none [] []) =
      .ok (.color none none) ∧
    convertTyped (ParsedParameter.mk "c".data ⟨.color, 0, false⟩ false false true
        false [] [.ofInt 1, .ofInt 2, .ofInt 3, .ofInt 4] [] [] none [] []) =
      .ok (.color (some ⟨.ofInt 1, .ofInt 2, .ofInt 3⟩) none) ∧
    convertTyped (ParsedParameter.mk "c".data ⟨.color, -1, false⟩ false false true
        false [] [.ofInt 1, .ofInt 2, .ofInt 3, .ofInt 4] [] [] none [] []) =
      .ok (.colorDynamicArray (some [⟨.ofInt 1, .ofInt 2, .ofInt 3⟩]) none) := by
  refine ⟨?_, ?_, ?_⟩
  · exact c3_geometric_grouping_amended.1
      (ParsedParameter.mk "c".data ⟨.color, 0, false⟩ false false true
        false [] [.ofInt 1, .ofInt 2] [] [] none [] []) rfl rfl rfl (by decide)
  · exact c3_geometric_grouping_amended.2.1
      (ParsedParameter.mk "c".data ⟨.color, 0, false⟩ false false true
        false [] [.ofInt 1, .ofInt 2, .ofInt 3, .ofInt 4] [] [] none [] [])
      (.ofInt 1) (.ofInt 2) (.ofInt 3) [.ofInt 4] rfl rfl rfl rfl
  · exact c3_geometric_grouping_amended.2.2.1
      (ParsedParameter.mk "c".data ⟨.color, -1, false⟩ false false true
        false [] [.ofInt 1, .ofInt 2, .ofInt 3, .ofInt 4] [] [] none [] [])
      rfl rfl rfl (by decide)

/-- C4 counterexample: `param float` has a symbol-kind first token but only
2 tokens, and the dispatcher returns `Ok(false)` leaving the previously
opened parameter accumulator untouched — no finalization happens.  The
end-to-end run shows the observable consequence: a `%meta` hint on the next
line still attaches to the old parameter `a` (the claim would route it to
the global metadata list after `a` was finalized). -/
theorem c4_finalize_counterexample :
    (parseSymtype "param".data).isSome = true ∧
    (tokenizeLine "param float".data).length = 2 ∧
    tryParseSymbolLine
      ⟨2, some (ParsedParameter.mk "a".data ⟨.float, 0, false⟩ false false true
        false [] [.ofInt 1] [] [] none [] []), true⟩
      OslQuery.new "param float".data =
      .ok (false,
        ⟨2, some (ParsedParameter.mk "a".data ⟨.float, 0, false⟩ false false true
          false [] [.ofInt 1] [] [] none [] []), true⟩,
        OslQuery.new) ∧
    parseString
      "param float a 1\nparam float\n%meta\x7bstring,note,\"x\"\x7d\ncode\n".data =
      .ok ⟨[], [], [⟨"a".data, .input (.float (some (.ofInt 1))),
        [⟨"note".data, .string "x".data⟩]⟩], []⟩ := by
  refine ⟨rfl, rfl, rfl, rfl⟩

/-- C4 amended: a line whose first token matches a symbol kind but that has
fewer than 3 tokens is treated as unrecognized — the dispatcher returns
without touching the open accumulator, so no finalization happens there;
finalization of the previous parameter occurs inside `handle_symbol`, i.e.
once the line has at least 3 tokens and its type specification parses,
before the new accumulator is opened. -/
theorem c4_finalize_amended :
    (∀ (st : OsoReader) (q : OslQuery) (line t0 : List Char),
      (tokenizeLine line).head? = some t0 → (parseSymtype t0).isSome = true →
      (tokenizeLine line).length < 3 →
      tryParseSymbolLine st q line = .ok (false, st, q)) ∧
    (∀ (st : OsoReader) (q : OslQuery) (sym : SymType) (ts : TypeSpec)
      (nm : List Char),
      (handleSymbol st q sym ts nm).2 = (finishCurrentParam st q).2) := by
  constructor
  · intro st q line t0 h0 hsym hlen
    obtain ⟨v, hv⟩ := Option.isSome_iff_exists.mp hsym
    obtain ⟨sy, r⟩ := v
    simp only [tryParseSymbolLine, h0, hv]
    rw [if_pos hlen]
  · intro st q sym ts nm
    rcases hf : finishCurrentParam st q with ⟨st1, q1⟩
    cases sym <;> simp [handleSymbol, hf]

/-- Witness for C4's amended statement: with a parameter open, the 2-token
line `param float` is ignored (state and query unchanged), while a
successful `handle_symbol` commits the open parameter to the query exactly
as finalization does. -/
theorem c4_finalize_amended_witness :
    tryParseSymbolLine
      ⟨7, some (ParsedParameter.mk "b".data ⟨.int, 0, false⟩ false false false
        false [] [] [] [] none [] []), true⟩
      OslQuery.new "param float".data =
      .ok (false,
        ⟨7, some (ParsedParameter.mk "b".data ⟨.int, 0, false⟩ false false false
          false [] [] [] [] none [] []), true⟩,
        OslQuery.new) ∧
    (handleSymbol
      ⟨7, some (ParsedParameter.mk "b".data ⟨.int, 0, false⟩ false false false
        false [] [] [] [] none [] []), true⟩
      OslQuery.new .param (TypeSpec.new (TypeDesc.new .float)) "k".data).2 =
      (finishCurrentParam
        ⟨7, some (ParsedParameter.mk "b".data ⟨.int, 0, false⟩ false false false
          false [] [] [] [] none [] []), true⟩ OslQuery.new).2 := by
  refine ⟨?_, ?_⟩
  · exact c4_finalize_amended.1
      ⟨7, some (ParsedParameter.mk "b".data ⟨.int, 0, false⟩ false false false
        false [] [] [] [] none [] []), true⟩
      OslQuery.new "param float".data "param".data rfl rfl (by decide)
  · exact c4_finalize_amended.2
      ⟨7, some (ParsedParameter.mk "b".data ⟨.int, 0, false⟩ false false false
        false [] [] [] [] none [] []), true⟩
      OslQuery.new .param (TypeSpec.new (TypeDesc.new .float)) "k".data

/-- Splitting worker: a newline after a newline-free prefix ends the first
line. -/
theorem splitLinesGo_break (pre : List Char) :
    ∀ (cur rest : List Char), '\n' ∉ pre →
      splitLinesGo cur (pre ++ '\n' :: rest) =
        stripCR (cur ++ pre) :: (if rest.isEmpty then [] else splitLinesGo [] rest) := by
  induction pre with
  | nil => intro cur rest _; simp [splitLinesGo]
  | cons c pre ih =>
    intro cur rest h
    have hc : c ≠ '\n' := fun hq => h (hq ▸ List.mem_cons_self c pre)
    simp only [List.cons_append, splitLinesGo]
    rw [if_neg (by simp [hc])]
    show splitLinesGo (cur ++ [c]) (pre ++ '\n' :: rest) = _
    rw [ih (cur ++ [c]) rest (fun hm => h (List.mem_cons_of_mem c hm))]
    simp

/-- A newline-free first line splits off the rest of the content. -/
theorem splitLines_break (pre rest : List Char) (h : '\n' ∉ pre) :
    splitLines (pre ++ '\n' :: rest) = stripCR pre :: splitLines rest := by
  unfold splitLines
  rw [if_neg (by simp)]
  rw [splitLinesGo_break pre [] rest h]
  simp

/-- A line accepted by `parse_version` begins with an `O`. -/
theorem parseVersion_starts (line : List Char) (x : (Int × Int) × List Char)
    (h : parseVersion line = some x) : ∃ t, line = 'O' :: t := by
  unfold parseVersion at h
  cases h1 : pTag "OpenShadingLanguage".data line with
  | none => simp only [h1] at h; exact Option.noConfusion h
  | some pr =>
    unfold pTag at h1
    split at h1
    · next hp =>
      obtain ⟨t, ht⟩ := List.isPrefixOf_iff_prefix.mp hp
      exact ⟨"penShadingLanguage".data ++ t, by rw [← ht]; rfl⟩
    · exact Option.noConfusion h1

/-- A line beginning with `O` is neither blank nor a `#` comment. -/
theorem version_line_not_comment (t : List Char) :
    ((trimAscii ('O' :: t)).isEmpty ||
      ((trimStartAscii ('O' :: t)).head? == some '#')) = false := by
  have h2 : trimStartAscii ('O' :: t) = 'O' :: t := by
    unfold trimStartAscii
    rw [List.dropWhile_cons, if_neg (by decide)]
  have h1 : trimAscii ('O' :: t) ≠ [] := by
    unfold trimAscii
    rw [List.dropWhile_cons, if_neg (by decide)]
    intro hh
    have h3 := List.reverse_eq_nil_iff.mp hh
    have hall := List.dropWhile_eq_nil_iff.mp h3
    have hO := hall 'O' (by simp)
    simp [wsChar] at hO
  rw [h2]
  simp only [Bool.or_eq_false_iff]
  constructor
  · cases hemp : (trimAscii ('O' :: t)).isEmpty
    · rfl
    · exact absurd (List.isEmpty_iff.mp hemp) h1
  · simp

/-- C7: a version line with major < 1 fails the whole parse with
`UnsupportedVersion` carrying the declared numbers (`OpenShadingLanguage
0.9` followed by anything yields `UnsupportedVersion(0, 9)` and no query);
a successfully parsed version line with major ≥ 1 changes nothing and
parsing continues with the next line. -/
theorem c7_version_gate :
    (∀ rest : List Char,
      parseString ("OpenShadingLanguage 0.9\n".data ++ rest) =
        .error (.unsupportedVersion 0 9)) ∧
    (∀ (st : OsoReader) (q : OslQuery) (line : List Char) (rest : List (List Char))
      (maj mi : Int) (r : List Char),
      parseVersion line = some ((maj, mi), r) → 1 ≤ maj →
      parseLines st q (line :: rest) =
        parseLines { st with lineNo := st.lineNo + 1 } q rest) := by
  constructor
  · intro rest
    unfold parseString
    have heq : "OpenShadingLanguage 0.9\n".data ++ rest =
        "OpenShadingLanguage 0.9".data ++ '\n' :: rest := rfl
    rw [heq, splitLines_break _ _ (by decide)]
    rfl
  · intro st q line rest maj mi r h hge
    obtain ⟨t, ht⟩ := parseVersion_starts line ((maj, mi), r) h
    subst ht
    simp only [parseLines]
    rw [if_neg (by simp [version_line_not_comment t])]
    simp only [h]
    rw [if_neg (by omega)]

/-- Witness for C7: `OpenShadingLanguage 0.9` aborts a concrete file, and
the version line `OpenShadingLanguage 1.12` leaves the state unchanged. -/
theorem c7_version_gate_witness :
    parseString ("OpenShadingLanguage 0.9\n".data ++ "surface s\n".data) =
      .error (.unsupportedVersion 0 9) ∧
    parseLines OsoReader.new OslQuery.new ["OpenShadingLanguage 1.12".data] =
      parseLines { OsoReader.new with lineNo := OsoReader.new.lineNo + 1 }
        OslQuery.new [] := by
  refine ⟨c7_version_gate.1 "surface s\n".data, ?_⟩
  exact c7_version_gate.2 OsoReader.new OslQuery.new
    "OpenShadingLanguage 1.12".data [] 1 12 [] rfl (by decide)

/-- Splitting on commas: a comma-free prefix becomes the first piece. -/
theorem splitOnComma_break (t : List Char) :
    ∀ rest : List Char, (∀ c ∈ t, c ≠ ',') →
      splitOnComma (t ++ ',' :: rest) = t :: splitOnComma rest := by
  induction t with
  | nil => intro rest _; simp [splitOnComma]
  | cons c t ih =>
    intro rest h
    have hc : c ≠ ',' := (h c (List.mem_cons_self c t))
    simp only [List.cons_append, splitOnComma]
    rw [if_neg (by simp [hc])]
    show (match splitOnComma (t ++ ',' :: rest) with
      | p :: ps => (c :: p) :: ps
      | [] => [[c]]) = _
    rw [ih rest (fun x hx => h x (List.mem_cons_of_mem c hx))]

/-- Splitting a comma-free string yields that single piece. -/
theorem splitOnComma_nosplit (l : List Char) (h : ∀ c ∈ l, c ≠ ',') :
    splitOnComma l = [l] := by
  induction l with
  | nil => rfl
  | cons c t ih =>
    simp only [splitOnComma]
    rw [if_neg (by simp [h c (List.mem_cons_self c t)])]
    rw [ih (fun x hx => h x (List.mem_cons_of_mem c hx))]

/-- Dropping nothing when the first character already fails the predicate. -/
theorem dropWhile_eq_self_of_head (p : Char → Bool) (l : List Char)
    (h : ∀ c, l.head? = some c → p c = false) : l.dropWhile p = l := by
  cases l with
  | nil => rfl
  | cons c t => rw [List.dropWhile_cons, if_neg (by simp [h c rfl])]

/-- Dropping nothing when no character satisfies the predicate. -/
theorem dropWhile_eq_self_of_all (p : Char → Bool) (l : List Char)
    (h : ∀ c ∈ l, p c = false) : l.dropWhile p = l := by
  cases l with
  | nil => rfl
  | cons c t =>
    rw [List.dropWhile_cons, if_neg (by simp [h c (List.mem_cons_self c t)])]

/-- Trimming is the identity when neither end is whitespace. -/
theorem trimAscii_eq_self (l : List Char)
    (hh : ∀ c, l.head? = some c → wsChar c = false)
    (hl : ∀ c, l.getLast? = some c → wsChar c = false) : trimAscii l = l := by
  unfold trimAscii
  rw [dropWhile_eq_self_of_head _ _ hh]
  rw [dropWhile_eq_self_of_head _ _ (fun c hc =>
    hl c (by rwa [List.head?_reverse] at hc))]
  simp

/-- Quote-stripping is the identity on quote-free strings. -/
theorem trimQuotes_eq_self (l : List Char) (h : ∀ c ∈ l, c ≠ '"') :
    trimQuotes l = l := by
  unfold trimQuotes
  rw [dropWhile_eq_self_of_all _ l (fun c hc => by simp [h c hc])]
  rw [dropWhile_eq_self_of_all _ l.reverse (fun c hc => by
    simp [h c (List.mem_reverse.mp hc)])]
  simp
/-- The quoted-parts scanner accumulates a run of plain characters
(no space, no quote) into the current part. -/
theorem pqpGo_plain_run (t : List Char) :
    ∀ (parts : List (List Char)) (current rest : List Char),
      (∀ c ∈ t, c ≠ ' ' ∧ c ≠ '"') →
      pqpGo parts current false false false (t ++ rest) =
        pqpGo parts (current ++ t) false false false rest := by
  induction t with
  | nil => intro parts current rest _; simp
  | cons c t ih =>
    intro parts current rest h
    have hc := h c (List.mem_cons_self c t)
    simp only [List.cons_append, pqpGo]
    rw [if_neg (by simp), if_neg (by simp), if_neg (by simp),
      if_neg (by simp [hc.2]), if_neg (by simp [hc.1])]
    show pqpGo parts (current ++ [c]) false false false (t ++ rest) = _
    rw [ih parts (current ++ [c]) rest (fun x hx => h x (List.mem_cons_of_mem c hx))]
    simp

/-- Inside quotes, the scanner accumulates every character that is neither
a quote nor a backslash (embedded spaces included). -/
theorem pqpGo_quoted_run (v : List Char) :
    ∀ (parts : List (List Char)) (current rest : List Char),
      (∀ c ∈ v, c ≠ '"' ∧ c ≠ '\\') →
      pqpGo parts current true false false (v ++ rest) =
        pqpGo parts (current ++ v) true false false rest := by
  induction v with
  | nil => intro parts current rest _; simp
  | cons c v ih =>
    intro parts current rest h
    have hc := h c (List.mem_cons_self c v)
    simp only [List.cons_append, pqpGo]
    rw [if_neg (by simp), if_neg (by simp), if_neg (by simp [hc.2]),
      if_neg (by simp [hc.1]), if_neg (by simp)]
    show pqpGo parts (current ++ [c]) true false false (v ++ rest) = _
    rw [ih parts (current ++ [c]) rest (fun x hx => h x (List.mem_cons_of_mem c hx))]
    simp
/-- Membership of the head. -/
theorem mem_of_head? (l : List Char) (c : Char) (h : l.head? = some c) : c ∈ l := by
  cases l with
  | nil => simp at h
  | cons a t => simp at h; simp [h]

/-- Membership of the last element. -/
theorem mem_of_getLast? (l : List Char) (c : Char) (h : l.getLast? = some c) : c ∈ l := by
  rw [← List.head?_reverse] at h
  exact List.mem_reverse.mp (mem_of_head? l.reverse c h)

/-- The quoted-space metadata form splits into exactly type, name and the
full quoted value. -/
theorem parseQuotedParts_form (t n v : List Char)
    (ht0 : t ≠ []) (hn0 : n ≠ []) (hv0 : v ≠ [])
    (ht : ∀ c ∈ t, c ≠ ' ' ∧ c ≠ '"')
    (hn : ∀ c ∈ n, c ≠ ' ' ∧ c ≠ '"')
    (hv : ∀ c ∈ v, c ≠ '"' ∧ c ≠ '\\') :
    parseQuotedParts (t ++ (' ' :: (n ++ (' ' :: ('"' :: (v ++ ['"'])))))) = [t, n, v] := by
  unfold parseQuotedParts
  rw [pqpGo_plain_run t _ _ _ ht]
  simp only [List.nil_append, pqpGo]
  rw [if_neg (by simp), if_neg (by simp), if_neg (by simp), if_neg (by simp),
    if_pos (by simp), if_neg (by simpa [List.isEmpty_iff] using ht0)]
  rw [pqpGo_plain_run n _ _ _ hn]
  simp only [List.nil_append, pqpGo]
  rw [if_neg (by simp), if_neg (by simp), if_neg (by simp), if_neg (by simp),
    if_pos (by simp), if_neg (by simpa [List.isEmpty_iff] using hn0)]
  rw [if_neg (by simp), if_neg (by simp), if_neg (by simp), if_pos (by simp),
    if_neg (by simp)]
  simp only [Bool.not_false]
  rw [pqpGo_quoted_run v _ _ _ hv]
  simp only [List.nil_append, pqpGo]
  rw [if_neg (by simp), if_neg (by simp), if_neg (by simp), if_pos (by simp),
    if_pos (by simpa [List.isEmpty_iff] using hv0)]
  simp [pqpGo]
/-- C8 amended: for a (type, name, value) triple in which type and name are
comma-, quote- and whitespace-free and the value is comma-, quote- and
backslash-free with non-whitespace ends, the comma form and the
quoted-space form produce the very same metadata accumulator (both reduce
to `parse_metadata_parts type name value`); the restriction to comma-free
values is forced by the counterexample, where the comma-first dispatch
misparses the space form. -/
theorem c8_meta_forms_amended (t n v : List Char)
    (ht0 : t ≠ []) (hn0 : n ≠ []) (hv0 : v ≠ [])
    (ht : ∀ c ∈ t, c ≠ ',' ∧ c ≠ '"' ∧ wsChar c = false)
    (hn : ∀ c ∈ n, c ≠ ',' ∧ c ≠ '"' ∧ wsChar c = false)
    (hv : ∀ c ∈ v, c ≠ ',' ∧ c ≠ '"' ∧ c ≠ '\\')
    (hvh : ∀ c, v.head? = some c → wsChar c = false)
    (hvl : ∀ c, v.getLast? = some c → wsChar c = false) :
    parseMetadataContent (t ++ (',' :: (n ++ (',' :: v)))) =
      parseMetadataParts t n v ∧
    parseMetadataContent (t ++ (' ' :: (n ++ (' ' :: ('"' :: (v ++ ['"'])))))) =
      parseMetadataParts t n v := by
  have hTtrim : trimAscii t = t := trimAscii_eq_self t
    (fun c hc => (ht c (mem_of_head? t c hc)).2.2)
    (fun c hc => (ht c (mem_of_getLast? t c hc)).2.2)
  have hNtrim : trimAscii n = n := trimAscii_eq_self n
    (fun c hc => (hn c (mem_of_head? n c hc)).2.2)
    (fun c hc => (hn c (mem_of_getLast? n c hc)).2.2)
  have hVtrim : trimAscii v = v := trimAscii_eq_self v hvh hvl
  have hVq : trimQuotes v = v := trimQuotes_eq_self v (fun c hc => (hv c hc).2.1)
  have hint : List.intercalate ",".data [v] = v := by
    simp [List.intercalate]
  have hints : List.intercalate " ".data [v] = v := by
    simp [List.intercalate]
  constructor
  · have hsplit : splitOnComma (t ++ (',' :: (n ++ (',' :: v)))) = [t, n, v] := by
      rw [splitOnComma_break t _ (fun c hc => (ht c hc).1),
        splitOnComma_break n _ (fun c hc => (hn c hc).1),
        splitOnComma_nosplit v (fun c hc => (hv c hc).1)]
    have hcomma : containsComma (t ++ (',' :: (n ++ (',' :: v)))) = true := by
      unfold containsComma
      rw [List.any_eq_true]
      exact ⟨',', by simp, by simp⟩
    simp only [parseMetadataContent, hcomma, if_true, hsplit, List.map_cons,
      List.map_nil, hTtrim, hNtrim, hVtrim]
    norm_num
    simp [hint, hVtrim, hVq]
  · have hnocomma :
        containsComma (t ++ (' ' :: (n ++ (' ' :: ('"' :: (v ++ ['"'])))))) = false := by
      unfold containsComma
      rw [List.any_eq_false]
      intro x hx
      simp only [List.mem_append, List.mem_cons] at hx
      rcases hx with h1 | h2 | h3 | h4 | h5
      · simp [(ht x h1).1]
      · simp [h2]
      · simp [(hn x h3).1]
      · simp [h4]
      · rcases h5 with h6 | h7
        · simp [h6]
        · rcases h7 with h8 | h9
          · simp [(hv x h8).1]
          · rcases h9 with h10 | h11
            · simp [h10]
            · simp at h11
    have hqp := parseQuotedParts_form t n v ht0 hn0 hv0
      (fun c hc => ⟨by intro he; subst he; have := (ht ' ' hc).2.2; simp [wsChar] at this,
        (ht c hc).2.1⟩)
      (fun c hc => ⟨by intro he; subst he; have := (hn ' ' hc).2.2; simp [wsChar] at this,
        (hn c hc).2.1⟩)
      (fun c hc => ⟨(hv c hc).2.1, (hv c hc).2.2⟩)
    simp only [parseMetadataContent, hnocomma, if_false, hqp]
    norm_num
    simp [hints]

/-- C8 counterexample: for the triple (string, label, `a,b,c`) the comma
form parses to a metadata entry named `label`, but the equivalent
quoted-space form falls into the comma-first dispatch and parses to an
entry named `b` — the two forms do not produce identical entries. -/
theorem c8_meta_forms_counterexample :
    (parseMetadataContent "string,label,\"a,b,c\"".data).toOption.map
      (fun p => p.name) = some "label".data ∧
    (parseMetadataContent "string label \"a,b,c\"".data).toOption.map
      (fun p => p.name) = some "b".data ∧
    "label".data ≠ "b".data := by
  refine ⟨rfl, rfl, by decide⟩

/-- Witness for C8's amended statement at the triple
(string, label, `hello world`). -/
theorem c8_meta_forms_amended_witness :
    parseMetadataContent
        ("string".data ++ (',' :: ("label".data ++ (',' :: "hello world".data)))) =
      parseMetadataParts "string".data "label".data "hello world".data ∧
    parseMetadataContent
        ("string".data ++ (' ' :: ("label".data ++
          (' ' :: ('"' :: ("hello world".data ++ ['"'])))))) =
      parseMetadataParts "string".data "label".data "hello world".data := by
  have hvh : ∀ c, "hello world".data.head? = some c → wsChar c = false := by
    intro c hc
    rw [show "hello world".data.head? = some 'h' from rfl] at hc
    cases hc
    decide
  have hvl : ∀ c, "hello world".data.getLast? = some c → wsChar c = false := by
    intro c hc
    rw [show "hello world".data.getLast? = some 'd' from rfl] at hc
    cases hc
    decide
  exact c8_meta_forms_amended "string".data "label".data "hello world".data
    (by decide) (by decide) (by decide) (by decide) (by decide) (by decide) hvh hvl

/-- A line whose first token is not a symbol kind (or that has no tokens)
is not a symbol line, and the dispatcher state is untouched. -/
theorem tryParseSymbolLine_unrecognized (st : OsoReader) (q : OslQuery)
    (line : List Char)
    (h : (match (tokenizeLine line).head? with
          | none => true
          | some t0 => (parseSymtype t0).isNone) = true) :
    tryParseSymbolLine st q line = .ok (false, st, q) := by
  unfold tryParseSymbolLine
  cases h0 : (tokenizeLine line).head? with
  | none => simp only [h0]
  | some t0 =>
    rw [h0] at h
    simp only [h0, Option.isNone_iff_eq_none.mp h]

/-- With no parameter open, a run of unrecognized lines leaves the query
untouched. -/
theorem parseLines_unrecognized (lines : List (List Char)) :
    ∀ k : Nat, (∀ l ∈ lines, lineUnrecognized l = true) →
      parseLines ⟨k, none, false⟩ OslQuery.new lines = .ok OslQuery.new := by
  induction lines with
  | nil => intro k _; simp [parseLines, finishCurrentParam]
  | cons line rest ih =>
    intro k h
    have hl := h line (List.mem_cons_self line rest)
    have htail : ∀ l ∈ rest, lineUnrecognized l = true :=
      fun l hm => h l (List.mem_cons_of_mem line hm)
    simp only [parseLines]
    by_cases hb :
        ((trimAscii line).isEmpty || ((trimStartAscii line).head? == some '#')) = true
    · rw [if_pos hb]
      exact ih (k + 1) htail
    · rw [if_neg hb]
      have h2 : ((parseVersion line).isNone && !(startsShaderKeyword line) &&
          (match (tokenizeLine line).head? with
            | none => true
            | some t0 => (parseSymtype t0).isNone) &&
          !("code".data.isPrefixOf line) && !(line.head? == some '%')) = true := by
        unfold lineUnrecognized at hl
        rcases Bool.or_eq_true_iff.mp hl with h1 | h2
        · exact absurd h1 hb
        · exact h2
      simp only [Bool.and_eq_true] at h2
      obtain ⟨⟨⟨⟨hv, hsh⟩, hsym⟩, hcode⟩, hpc⟩ := h2
      rw [Option.isNone_iff_eq_none] at hv
      simp only [hv]
      rw [if_neg (by simp [Bool.not_eq_true'] at hsh; simp [hsh])]
      rw [tryParseSymbolLine_unrecognized _ _ _ hsym]
      simp only [Bool.not_eq_true'] at hcode hpc
      simp only [hcode, hpc, Bool.false_eq_true, if_false]
      exact ih (k + 1) htail

/-- C9: an input none of whose lines is a recognized directive — blank
lines, `#` comments, and free text whose first token matches nothing —
parses successfully to the empty query: empty shader name and type, no
parameters, no global metadata.  Unrecognized text is never an error. -/
theorem c9_unrecognized_lines_ok :
    ∀ content : List Char,
      (∀ l ∈ splitLines content, lineUnrecognized l = true) →
      parseString content = .ok OslQuery.new ∧
      OslQuery.new.shaderName = [] ∧ OslQuery.new.shaderType = [] ∧
      OslQuery.new.parameters = [] ∧ OslQuery.new.metadata = [] := by
  intro content h
  refine ⟨?_, rfl, rfl, rfl, rfl⟩
  unfold parseString
  exact parseLines_unrecognized (splitLines content) 1 h

/-- Witness for C9: a comment, a blank line and free text parse to the
empty query. -/
theorem c9_unrecognized_lines_ok_witness :
    parseString "# note\n\nfoo bar\n".data = .ok OslQuery.new ∧
    parseString "".data = .ok OslQuery.new := by
  constructor
  · exact (c9_unrecognized_lines_ok "# note\n\nfoo bar\n".data (by decide)).1
  · exact (c9_unrecognized_lines_ok "".data (by decide)).1

/-- C10: each `%space{...}` hint on an open parameter appends the parsed
space name to the accumulator's coordinate-space list in order, and the
unifier's space tag for the 3-float geometric base types is only the head
of that list — every later entry is dropped from the result. -/
theorem c10_space_hint_first_only :
    (∀ (st : OsoReader) (q : OslQuery) (hs s : List Char) (p : ParsedParameter),
      st.readingParam = true → st.currentParam = some p →
      "%space\x7b".data.isPrefixOf hs → parseSpaceHint hs = some s →
      handleHint st q hs = ({ st with currentParam := some (p.pushSpace s) }, q)) ∧
    (∀ (p : ParsedParameter) (s : List Char),
      (p.pushSpace s).spacename = p.spacename ++ [s]) ∧
    (∀ (p : ParsedParameter) (tp : TypedParameter),
      (p.typeDesc.basetype = .color ∨ p.typeDesc.basetype = .point ∨
        p.typeDesc.basetype = .vector ∨ p.typeDesc.basetype = .normal) →
      convertTyped p = .ok tp → tp.spaceOf = p.spacename.head?) := by
  refine ⟨?_, ?_, ?_⟩
  · intro st q hs s p hr hc hp hsp
    obtain ⟨u, hu⟩ := List.isPrefixOf_iff_prefix.mp hp
    subst hu
    unfold handleHint
    rw [if_neg (by simp [List.isPrefixOf]), if_neg (by simp [List.isPrefixOf]),
      if_neg (by simp [List.isPrefixOf]),
      if_pos (by simp [hr, List.isPrefixOf])]
    rw [hsp]
    unfold updateCurrent
    rw [hc]
  · intro p s
    cases p
    rfl
  · intro p tp hb h
    rcases hb with hb | hb | hb | hb <;>
      (unfold convertTyped at h
       simp only [hb] at h
       repeat split at h
       all_goals cases h
       all_goals simp [TypedParameter.spaceOf])

/-- Witness for C10: a second `%space` hint is appended to the list, and a
color accumulator carrying two space names unifies with only the first as
its tag. -/
theorem c10_space_hint_first_only_witness :
    handleHint ⟨3, some (ParsedParameter.mk "c".data ⟨.color, 0, false⟩ false false
      false false [] [] [] ["rgb".data] none [] []), true⟩ OslQuery.new
      "%space\x7bobject\x7d".data =
      (⟨3, some (ParsedParameter.mk "c".data ⟨.color, 0, false⟩ false false
        false false [] [] [] ["rgb".data, "object".data] none [] []), true⟩,
        OslQuery.new) ∧
    convertTyped (ParsedParameter.mk "c".data ⟨.color, 0, false⟩ false false
      false false [] [] [] ["rgb".data, "object".data] none [] []) =
      .ok (.color none (some "rgb".data)) ∧
    (TypedParameter.color none (some "rgb".data)).spaceOf = some "rgb".data := by
  refine ⟨?_, rfl, ?_⟩
  · have := c10_space_hint_first_only.1
      ⟨3, some (ParsedParameter.mk "c".data ⟨.color, 0, false⟩ false false
        false false [] [] [] ["rgb".data] none [] []), true⟩ OslQuery.new
      "%space\x7bobject\x7d".data "object".data
      (ParsedParameter.mk "c".data ⟨.color, 0, false⟩ false false
        false false [] [] [] ["rgb".data] none [] [])
      rfl rfl (by decide) rfl
    exact this
  · exact c10_space_hint_first_only.2.2
      (ParsedParameter.mk "c".data ⟨.color, 0, false⟩ false false
        false false [] [] [] ["rgb".data, "object".data] none [] [])
      (.color none (some "rgb".data)) (Or.inl rfl) rfl

/-- Witness for C6 at concrete inputs: an unterminated quote mid-line and an
unterminated `%meta{` block. -/
theorem c6_unterminated_witness :
    tokenizeGo ["a".data] (.plain none) ('"' :: "xy z".data) =
      ["a".data] ++ [[] ++ '"' :: "xy z".data] ∧
    tokenizeGo [] (.plain none) ('%' :: ("meta".data ++ '\x7b' :: "a b".data)) =
      [] ++ [[] ++ '%' :: ("meta".data ++ '\x7b' :: "a b".data)] ∧
    (tokenizeLine ('"' :: "xy z".data)).getLast? = some ('"' :: "xy z".data) := by
  refine ⟨?_, ?_, ?_⟩
  · exact c6_unterminated_extends_to_eol.1 ["a".data] none "xy z".data (by decide)
  · exact c6_unterminated_extends_to_eol.2.1 [] none "meta".data "a b".data
      (by decide) (by decide)
  · exact c6_unterminated_extends_to_eol.2.2.1 "xy z".data (by decide)

end Oslq
